import Mathlib

/-!
Verification development for the `pkgtree` digest and dependency-tree
verification code (`internal/gps/pkgtree/digest.go`).

The Go code is shallowly embedded: bytes are `Nat`, byte buffers are
`List Nat`, pathnames are lists of path components (`List String`), the
SHA-256 accumulator is modelled by the exact byte stream written to it
(two trees get equal digests iff the streams written to the hash are
equal, and distinct streams are what the null separator design is about),
and the file system is supplied through explicit operation records so
that failures of stat, open, read, readlink, listing and close can be
modelled.
-/

namespace PkgTree

/-- Bytes of an ASCII string, as the Go code hashes string data byte-wise. -/
def strBytes (s : String) : List Nat := s.toList.map Char.toNat

/-- Model of `bytes.Index(b, "\r\n")`: index of the first CR LF pair in `b`, if any. -/
def findCRLF : List Nat → Option Nat
  | a :: b :: t => if a = 13 ∧ b = 10 then some 0 else (findCRLF (b :: t)).map (· + 1)
  | _ => none

/-- The CRLF-removal loop of `lineEndingReader.Read` (digest.go lines
185-195): repeatedly search `buf` starting at `prevIndex` for a CR LF
pair, remove the CR, and set `prevIndex` to the index *relative to the
previous search start* (this is the exact source behaviour, including the
`prevIndex = index` assignment).  The fuel argument bounds the number of
loop iterations; `crlfRemove` supplies enough fuel for the loop to run to
completion, since every iteration removes one byte. -/
def crlfLoopF : Nat → List Nat → Nat → List Nat
  | 0, b, _ => b
  | Nat.succ fuel, b, prevIndex =>
    match findCRLF (b.drop prevIndex) with
    | none => b
    | some i => crlfLoopF fuel (b.eraseIdx (prevIndex + i)) i

/-- The complete CRLF-removal pass over a buffer holding `b`. -/
def crlfRemove (b : List Nat) : List Nat := crlfLoopF (b.length + 1) b 0

/-- One call of `lineEndingReader.Read` (digest.go lines 164-211), given
the cross-call state `prevCR` (`prevReadEndedCR`) and the bytes `chunk`
that the underlying source delivered into the buffer for this call.
Returns the bytes handed back to the caller and the new state:
if the previous call withheld a CR and this chunk does not begin with LF,
the CR is prepended; CR LF pairs are removed by `crlfRemove`; a trailing
CR is withheld; on an empty delivery a withheld CR is emitted alone. -/
def lineEndingRead (prevCR : Bool) (chunk : List Nat) : List Nat × Bool :=
  if chunk.length > 0 then
    let b1 := if prevCR && !(chunk.head? == some 10) then 13 :: chunk else chunk
    let b2 := crlfRemove b1
    if b2.getLast? == some 13 then (b2.dropLast, true) else (b2, false)
  else if prevCR then ([13], false)
  else ([], false)

/-- The total byte sequence a client obtains by calling `Read` until the
underlying source is exhausted, when the source delivers the given
successive chunks and then reports end of stream.  After the final chunk
a withheld CR is still emitted by one more `Read` call (digest.go lines
202-209). -/
def lineEndingOutput : Bool → List (List Nat) → List Nat
  | prevCR, [] => if prevCR then [13] else []
  | prevCR, c :: cs =>
    let r := lineEndingRead prevCR c
    r.1 ++ lineEndingOutput r.2 cs

/-- The transform the specification describes: every CR LF two-byte
sequence becomes a single LF; lone CR and lone LF bytes are untouched;
no byte is dropped. -/
def crlfToLF : List Nat → List Nat
  | 13 :: 10 :: rest => 10 :: crlfToLF rest
  | b :: rest => b :: crlfToLF rest
  | [] => []

/-- Model of `lineEndingReader.Read` with every buffer indexing and slicing
operation guarded (digest.go lines 164-211): `cap` is the length of the
caller's buffer.  `none` models a Go runtime panic: slicing `buf[:buflen]`
with `buflen = len(buf)-1 = -1`, the shift `copy(buf[1:nr+1], ...)`
exceeding the buffer, reading `buf[nr-1]` with `nr = 0`, or storing the
withheld CR to `buf[0]` of an empty buffer. -/
def lineEndingReadChecked (prevCR : Bool) (cap : Nat) (chunk : List Nat) :
    Option (List Nat × Bool) :=
  let buflen : Int := (cap : Int) - (if prevCR then 1 else 0)
  if buflen < 0 then none
  else if chunk.length > 0 then
    let b1? : Option (List Nat) :=
      if prevCR && !(chunk.head? == some 10) then
        if chunk.length + 1 ≤ cap then some (13 :: chunk) else none
      else some chunk
    match b1? with
    | none => none
    | some b1 =>
      let b2 := crlfRemove b1
      match b2.getLast? with
      | none => none
      | some lastByte =>
        if lastByte == 13 then some (b2.dropLast, true) else some (b2, false)
  else if prevCR then
    if 1 ≤ cap then some ([13], false) else none
  else some ([], false)

/-- Model of `strconv.FormatInt(n, 10)` for the nonnegative counts the code
produces: decimal ASCII digits, most significant first. -/
def decBytes (n : Nat) : List Nat := (Nat.toDigits 10 n).map Char.toNat

/-- The loop of `io.Copy(h, newLineEndingReader(fh))` (digest.go line
123): repeatedly fill a 32768-byte buffer from the reader and write the
yield to the hash, counting the bytes written.  A regular file delivers
`min(requested, remaining)` bytes per underlying read.  Returns the bytes
written to the hash and the count `written`.  The fuel bounds the number
of iterations; every iteration on a nonempty remainder consumes at least
one source byte, so `ioCopyNorm` below always supplies enough fuel. -/
def ioCopyLoop : Nat → List Nat → Bool → List Nat × Nat
  | 0, _, _ => ([], 0)
  | Nat.succ fuel, rest, prevCR =>
    if rest.isEmpty then
      if prevCR then ([13], 1) else ([], 0)
    else
      let buflen := 32768 - (if prevCR then 1 else 0)
      let r := lineEndingRead prevCR (rest.take buflen)
      let r2 := ioCopyLoop fuel (rest.drop buflen) r.2
      (r.1 ++ r2.1, r.1.length + r2.2)

/-- Model of `io.Copy` over a whole regular file through the line-ending reader. -/
def ioCopyNorm (contents : List Nat) : List Nat × Nat :=
  ioCopyLoop (contents.length + 2) contents false

/-- The bytes `DigestFromPathname` feeds to the hash for a regular file,
after the file's prefix-stripped pathname: the normalized contents, then
the decimal ASCII of `written` (the byte count returned by `io.Copy`),
then a null byte (digest.go lines 123-125). -/
def fileHashBytes (contents : List Nat) : List Nat :=
  let r := ioCopyNorm contents
  r.1 ++ decBytes r.2 ++ [0]

example : lineEndingOutput false [[97, 13, 10, 98, 13, 10, 99]] = [97, 10, 98, 10, 99] := by decide
example : lineEndingOutput false [[97, 13], [10, 98, 13, 10, 99]] = [97, 10, 98, 10, 99] := by decide
example : lineEndingOutput false [[88, 13, 10, 13, 13, 10]] = [88, 10, 10] := by decide
example : crlfToLF [88, 13, 10, 13, 13, 10] = [88, 10, 13, 10] := by decide
example : decBytes 120 = [49, 50, 48] := by decide
example : fileHashBytes [97, 13, 10, 98] = [97, 10, 98, 51, 0] := by decide

/-! ## The digest walk, `DigestFromPathname` -/

/-- Go error values as digest.go produces them: a base error from the
operating system wrapped by `errors.Wrap`, each wrap naming the failing
operation. -/
inductive GoErr (ε : Type) where
  | base (e : ε)
  | wrap (msg : String) (e : GoErr ε)
  | errorf (msg : String)
deriving DecidableEq

/-- Model of `os.FileMode` as far as digest.go inspects it: the directory bit, the
symbolic-link bit, and whether any of the `skipModes` bits (device, named
pipe, socket, character device) is set. -/
structure FileMode where
  isDir : Bool
  isSymlink : Bool
  isSkip : Bool
deriving DecidableEq

/-- The file-system operations `DigestFromPathname` consumes, each able
to fail with a base error of type `ε`.  A handle is identified by the
pathname it was opened from.  `readFull` abstracts the reads performed by
`io.Copy` on an open file; `closef` returns `some e` when `Close` fails. -/
structure DigestOps (ε : Type) where
  lstat : List String → Except ε FileMode
  readlink : List String → Except ε String
  openf : List String → Except ε Unit
  readdirnames : List String → Except ε (List String)
  readFull : List String → Except ε (List Nat)
  closef : List String → Option ε

/-- Byte-wise lexicographic comparison, as `sort.Strings` orders Go
strings. -/
def bytesLt : List Nat → List Nat → Bool
  | [], [] => false
  | [], _ :: _ => true
  | _ :: _, [] => false
  | a :: as, b :: bs => if a < b then true else if b < a then false else bytesLt as bs

/-- Insertion into a byte-lexicographically sorted list of strings. -/
def insertSorted (s : String) : List String → List String
  | [] => [s]
  | t :: ts => if bytesLt (strBytes t) (strBytes s) then t :: insertSorted s ts else s :: t :: ts

/-- Model of `sort.Strings`: byte-wise lexicographic sort. -/
def sortStrs : List String → List String
  | [] => []
  | s :: ss => insertSorted s (sortStrs ss)

/-- Model of `sortedListOfDirectoryChildrenFromFileHandle` (digest.go lines
296-305): `Readdirnames(0)` on the open handle, wrapped on failure, then
sorted. -/
def sortedChildrenFromHandle {ε : Type} (ops : DigestOps ε) (p : List String) :
    Except (GoErr ε) (List String) :=
  match ops.readdirnames p with
  | .error e => .error (.wrap "cannot Readdirnames" (.base e))
  | .ok ns => .ok (sortStrs ns)

/-- Model of `sortedListOfDirectoryChildrenFromPathname` (digest.go lines
276-291): open, list, then close, the close error surfacing only when
nothing failed earlier. -/
def sortedChildrenFromPathname {ε : Type} (ops : DigestOps ε) (p : List String) :
    Except (GoErr ε) (List String) :=
  match ops.openf p with
  | .error e => .error (.wrap "cannot Open" (.base e))
  | .ok _ =>
    match sortedChildrenFromHandle ops p with
    | .error e => .error e
    | .ok ns =>
      match ops.closef p with
      | some e => .error (.wrap "cannot Close" (.base e))
      | none => .ok ns

/-- Model of `writeBytesWithNull` (digest.go lines 215-219) on the modelled hash
stream: append the data followed by a null byte. -/
def writeBytesWithNull (acc data : List Nat) : List Nat := acc ++ (data ++ [0])

/-- Model of `filepath.ToSlash` applied to a pathname given by components: the bytes of
the components joined by forward slashes. -/
def joinSlash (comps : List String) : List Nat := strBytes (String.intercalate "/" comps)

/-- The child names skipped by both walks (digest.go lines 116 and 406). -/
def skipName (n : String) : Bool :=
  n == "." || n == ".." || n == "vendor" || n == ".bzr" || n == ".git" || n == ".hg" || n == ".svn"

/-- Processing of one dequeued pathname by `DigestFromPathname` (digest.go
lines 72-135): returns the bytes written to the hash for this node and
the children pathnames appended to the queue, or the error that aborts
the walk.  `preLen` is the number of components of the cleaned prefix
stripped from every hashed pathname. -/
def digestVisit {ε : Type} (ops : DigestOps ε) (preLen : Nat) (p : List String) :
    Except (GoErr ε) (List Nat × List (List String)) :=
  match ops.lstat p with
  | .error e => .error (.wrap "cannot Lstat" (.base e))
  | .ok mode =>
    if mode.isSkip then .ok ([], [])
    else
      let nameBytes := writeBytesWithNull [] (joinSlash (p.drop preLen))
      if mode.isSymlink then
        match ops.readlink p with
        | .error e => .error (.wrap "cannot Readlink" (.base e))
        | .ok referent => .ok (writeBytesWithNull nameBytes (strBytes referent), [])
      else
        match ops.openf p with
        | .error e => .error (.wrap "cannot Open" (.base e))
        | .ok _ =>
          if mode.isDir then
            match sortedChildrenFromHandle ops p with
            | .error e => .error (.wrap "cannot get list of directory children" e)
            | .ok names =>
              let kids := (names.filter (fun n => !(skipName n))).map (fun n => p ++ [n])
              match ops.closef p with
              | some e => .error (.wrap "cannot Close" (.base e))
              | none => .ok (nameBytes, kids)
          else
            match ops.readFull p with
            | .error e => .error (.wrap "cannot Copy" (.base e))
            | .ok contents =>
              match ops.closef p with
              | some e => .error (.wrap "cannot Close" (.base e))
              | none => .ok (nameBytes ++ fileHashBytes contents, [])

/-- The queue loop of `DigestFromPathname` (digest.go lines 67-136):
pathnames are taken from the front of the queue (breadth-first) and
children appended at the back; `acc` is the byte stream written to the
hash so far.  `none` means the fuel bound on iterations was exhausted. -/
def digestLoop {ε : Type} (ops : DigestOps ε) (preLen : Nat) :
    Nat → List (List String) → List Nat → Option (Except (GoErr ε) (List Nat))
  | _, [], acc => some (.ok acc)
  | 0, _ :: _, _ => none
  | Nat.succ fuel, p :: queue, acc =>
    match digestVisit ops preLen p with
    | .error e => some (.error e)
    | .ok r => digestLoop ops preLen fuel (queue ++ r.2) (acc ++ r.1)

/-- Model of `DigestFromPathname(prefix, pathname)` (digest.go lines 50-139),
modelled as the byte stream fed to the SHA-256 hash: the digest is the
hash of this stream, so two calls produce equal digests exactly when the
streams are equal.  The cleaned separator-terminated prefix is `pre` and
the queue is seeded with the joined pathname. -/
def digestFromPathname {ε : Type} (ops : DigestOps ε) (pre rel : List String) (fuel : Nat) :
    Option (Except (GoErr ε) (List Nat)) :=
  digestLoop ops pre.length fuel [pre ++ rel] []

/-! ## Concrete file systems -/

/-- A concrete file-system subtree: regular files with contents,
directories with named children, symbolic links whose target is recorded
as a path from the file-system root, and the non-portable node kinds
(device, named pipe, socket, character device) collapsed to `special`. -/
inductive FTree where
  | file (contents : List Nat)
  | dir (children : List (String × FTree))
  | symlink (target : List String)
  | special

/-- Path lookup in a concrete tree, not following symbolic links. -/
def lookupT : FTree → List String → Option FTree
  | t, [] => some t
  | .dir ch, n :: rest =>
    match ch.find? (fun kv => kv.1 == n) with
    | some kv => lookupT kv.2 rest
    | none => none
  | _, _ :: _ => none

/-- Path lookup following a symbolic link in the final component, as
`os.Open` and `os.Stat` do; the fuel bounds the length of symlink
chains (the kernel's ELOOP limit). -/
def resolveT (fs : FTree) : Nat → List String → Option FTree
  | 0, _ => none
  | Nat.succ fuel, p =>
    match lookupT fs p with
    | some (.symlink t) => resolveT fs fuel t
    | r => r

/-- The digest walk's operations over a concrete tree rooted at the
file-system root: `lstat` and `readlink` do not follow links (`os.Lstat`,
`os.Readlink`), while opening, listing and reading follow them
(`os.Open`); `Close` never fails on this healthy file system. -/
def dOpsOfTree (fs : FTree) : DigestOps Unit where
  lstat p :=
    match lookupT fs p with
    | some (.file _) => .ok ⟨false, false, false⟩
    | some (.dir _) => .ok ⟨true, false, false⟩
    | some (.symlink _) => .ok ⟨false, true, false⟩
    | some .special => .ok ⟨false, false, true⟩
    | none => .error ()
  readlink p :=
    match lookupT fs p with
    | some (.symlink t) => .ok (String.intercalate "/" t)
    | _ => .error ()
  openf p :=
    match resolveT fs 40 p with
    | some (.file _) => .ok ()
    | some (.dir _) => .ok ()
    | _ => .error ()
  readdirnames p :=
    match resolveT fs 40 p with
    | some (.dir ch) => .ok (ch.map (fun kv => kv.1))
    | _ => .error ()
  readFull p :=
    match resolveT fs 40 p with
    | some (.file c) => .ok c
    | _ => .error ()
  closef _ := none

/-- Model of `os.Stat` over a concrete tree: symbolic links are followed, so the
reported mode never has the symlink bit set (a broken link is an error). -/
def vStatOfTree (fs : FTree) (p : List String) : Except Unit FileMode :=
  match resolveT fs 40 p with
  | some (.file _) => .ok ⟨false, false, false⟩
  | some (.dir _) => .ok ⟨true, false, false⟩
  | some .special => .ok ⟨false, false, true⟩
  | _ => .error ()

example :
    digestFromPathname (dOpsOfTree (.dir [("v", .dir [("t", .dir [("ab", .file [99])])])]))
      ["v"] ["t"] 10 =
    some (.ok [116, 0, 116, 47, 97, 98, 0, 99, 49, 0]) := rfl

example :
    digestFromPathname (dOpsOfTree (.dir [("v", .dir [("t", .dir [("a", .file [98, 99])])])]))
      ["v"] ["t"] 10 =
    some (.ok [116, 0, 116, 47, 97, 0, 98, 99, 50, 0]) := rfl

/-! ## The reconciliation walk, `VerifyDepTree` -/

/-- Model of `VendorStatus` (digest.go lines 221-246). -/
inductive VendorStatus where
  | NotInLock
  | NotInTree
  | NoMismatch
  | EmptyDigestInLock
  | DigestMismatchInLock
deriving DecidableEq

/-- Model of `fsnode` (digest.go lines 264-268): one directory (or file) record of
the walk, holding its pathname, the required-ancestor flag, its own slice
index and its parent's slice index (`-1` for the root). -/
structure VNode where
  pathname : List String
  isRequiredAncestor : Bool
  myIndex : Nat
  parentIndex : Int
deriving DecidableEq

/-- Lookup of `nodes[i]` for a possibly negative index. -/
def getNode (ns : List VNode) (i : Int) : Option VNode :=
  if i < 0 then none else ns.get? i.toNat

/-- The required-ancestor marking loop (digest.go lines 391-395): starting
from the matched node's index, follow parent indices until `-1`, setting
the flag on every node passed.  The fuel bounds the chain length;
`VerifyDepTree` supplies `nodes.length + 1`, enough because parent indices
of walk-created nodes strictly decrease. -/
def markChain : Nat → List VNode → Int → List VNode
  | 0, ns, _ => ns
  | Nat.succ fuel, ns, pni =>
    if pni < 0 then ns
    else
      match ns.get? pni.toNat with
      | none => ns
      | some nd =>
        markChain fuel (ns.set pni.toNat { nd with isRequiredAncestor := true }) nd.parentIndex

/-- Lookup in the expected-sums table (`wantSums[short]`), the table
being an association list from prefix-stripped path to expected digest. -/
def tLookup (table : List (List String × List Nat)) (k : List String) : Option (List Nat) :=
  match table.find? (fun kv => kv.1 == k) with
  | some kv => some kv.2
  | none => none

/-- A status map is a partial function from prefix-stripped paths. -/
def StatusMap : Type := List String → Option VendorStatus

/-- Writing one entry of the status map. -/
def setStatus (m : StatusMap) (k : List String) (v : VendorStatus) : StatusMap :=
  fun j => if j == k then some v else m j

/-- The result of a completed walk: the status map, the node array, and
the write log, recording each status write performed after
initialization as the writing node's index and the status written. -/
structure VerifyResult where
  status : StatusMap
  nodes : List VNode
  log : List (Nat × VendorStatus)

/-- The children loop of `VerifyDepTree` (digest.go lines 404-428): walk
the sorted child names, skip the `vendor`, VCS and pseudo entries, `Stat`
each remaining child (aborting the whole walk on failure), skip modes
with the `skipModes` or symlink bit set, append a node for the rest, and
push directories onto the traversal stack (as node indices). -/
def addChildren {ε : Type} (vstat : List String → Except ε FileMode) (parent : VNode) :
    List String → List VNode → List Nat → Except (GoErr ε) (List VNode × List Nat)
  | [], nodes, queue => .ok (nodes, queue)
  | n :: rest, nodes, queue =>
    if skipName n then addChildren vstat parent rest nodes queue
    else
      let childPath := parent.pathname ++ [n]
      match vstat childPath with
      | .error e => .error (.wrap "cannot Stat" (.base e))
      | .ok mode =>
        if mode.isSkip || mode.isSymlink then addChildren vstat parent rest nodes queue
        else
          let nd : VNode := ⟨childPath, false, nodes.length, (parent.myIndex : Int)⟩
          addChildren vstat parent rest (nodes ++ [nd])
            (if mode.isDir then queue ++ [nd.myIndex] else queue)

/-- The main loop of `VerifyDepTree` (digest.go lines 369-433): pop a node
index from the end of the queue (depth-first).  If its prefix-stripped
path is a table key, compute its status (empty expected digest, or a
digest comparison through `DigestFromPathname` with fuel `dFuel`), record
it, mark the node and its ancestors required, and do not descend.
Otherwise list the directory's children and add them.  `none` means a
fuel bound was exhausted. -/
def verifyLoop {ε : Type} (dops : DigestOps ε) (vstat : List String → Except ε FileMode)
    (root : List String) (table : List (List String × List Nat)) (dFuel : Nat) :
    Nat → List VNode → List Nat → StatusMap → List (Nat × VendorStatus) →
    Option (Except (GoErr ε) VerifyResult)
  | 0, nodes, queue, status, log =>
    if queue.isEmpty then some (.ok ⟨status, nodes, log⟩) else none
  | Nat.succ fuel, nodes, queue, status, log =>
    match queue.getLast? with
    | none => some (.ok ⟨status, nodes, log⟩)
    | some i =>
      let rest := queue.dropLast
      match nodes.get? i with
      | none => none
      | some cur =>
        let short := cur.pathname.drop root.length
        match tLookup table short with
        | some want =>
          let ls? : Option (Except (GoErr ε) VendorStatus) :=
            if want.isEmpty then some (.ok .EmptyDigestInLock)
            else
              match digestFromPathname dops root short dFuel with
              | none => none
              | some (.error e) => some (.error (.wrap "cannot compute dependency hash" e))
              | some (.ok sum) =>
                some (.ok (if sum == want then .NoMismatch else .DigestMismatchInLock))
          match ls? with
          | none => none
          | some (.error e) => some (.error e)
          | some (.ok ls) =>
            verifyLoop dops vstat root table dFuel fuel
              (markChain (nodes.length + 1) nodes ((cur.myIndex : Int))) rest
              (setStatus status short ls) (log ++ [(cur.myIndex, ls)])
        | none =>
          match sortedChildrenFromPathname dops cur.pathname with
          | .error e => some (.error (.wrap "cannot get sorted list of directory children" e))
          | .ok names =>
            match addChildren vstat cur names nodes rest with
            | .error e => some (.error e)
            | .ok r => verifyLoop dops vstat root table dFuel fuel r.1 r.2 status log

/-- Model of `nodes[currentNode.parentIndex].isRequiredAncestor` (digest.go line
440): whether the node's parent carries the required flag. -/
def parentReqAt (ns : List VNode) (nd : VNode) : Bool :=
  match getNode ns nd.parentIndex with
  | some pp => pp.isRequiredAncestor
  | none => false

/-- The backward pass of `VerifyDepTree` (digest.go lines 438-443),
walking node indices from `i` down to `1`: a node that is not required
but whose parent is required is recorded `NotInLock` under its
prefix-stripped path. -/
def backwardPass (nodes : List VNode) (rootLen : Nat) :
    Nat → StatusMap → List (Nat × VendorStatus) → StatusMap × List (Nat × VendorStatus)
  | 0, status, log => (status, log)
  | Nat.succ i0, status, log =>
    match nodes.get? (Nat.succ i0) with
    | none => backwardPass nodes rootLen i0 status log
    | some nd =>
      if !nd.isRequiredAncestor && parentReqAt nodes nd then
        backwardPass nodes rootLen i0
          (setStatus status (nd.pathname.drop rootLen) .NotInLock)
          (log ++ [(Nat.succ i0, VendorStatus.NotInLock)])
      else backwardPass nodes rootLen i0 status log

/-- The chain of node indices reached from parent index `pni` by
repeatedly following `parentIndex`, stopping at `-1` (or at a dangling
index).  The fuel bounds the chain length. -/
def ancChainF (ns : List VNode) : Nat → Int → List Nat
  | 0, _ => []
  | Nat.succ fuel, pni =>
    if pni < 0 then []
    else
      match ns.get? pni.toNat with
      | none => []
      | some nd => pni.toNat :: ancChainF ns fuel nd.parentIndex

/-- The strict ancestors of node `j` in the node array: the indices on
the parent chain starting at `j`'s parent. -/
def ancestorsOf (ns : List VNode) (j : Nat) : List Nat :=
  match ns.get? j with
  | some nd => ancChainF ns (ns.length + 1) nd.parentIndex
  | none => []

/-- Model of `VerifyDepTree(vendorPathname, wantSums)` (digest.go lines 310-446):
check the root is a directory, seed the status map with `NotInTree` for
every table key, run the walk, then the backward pass.  `root` is the
cleaned separator-terminated vendor pathname as components; `fuel` bounds
walk iterations and `dFuel` the inner digest walks. -/
def verifyDepTree {ε : Type} (dops : DigestOps ε) (vstat : List String → Except ε FileMode)
    (root : List String) (table : List (List String × List Nat)) (dFuel fuel : Nat) :
    Option (Except (GoErr ε) VerifyResult) :=
  match vstat root with
  | .error e => some (.error (.wrap "cannot Stat" (.base e)))
  | .ok fi =>
    if !fi.isDir then some (.error (.errorf "cannot verify non directory"))
    else
      let rootNode : VNode := ⟨root, true, 0, -1⟩
      let status0 : StatusMap := fun k => if (tLookup table k).isSome then some .NotInTree else none
      match verifyLoop dops vstat root table dFuel fuel [rootNode] [0] status0 [] with
      | none => none
      | some (.error e) => some (.error e)
      | some (.ok r) =>
        let b := backwardPass r.nodes root.length (r.nodes.length - 1) r.status r.log
        some (.ok ⟨b.1, r.nodes, b.2⟩)

/-- The status recorded for path `k` by a completed run, or `none` when
the run failed or ran out of fuel. -/
def statusAt {ε : Type} (res : Option (Except (GoErr ε) VerifyResult)) (k : List String) :
    Option (Option VendorStatus) :=
  match res with
  | some (.ok r) => some (r.status k)
  | _ => none

/-- The node array of a completed run. -/
def nodesOf {ε : Type} (res : Option (Except (GoErr ε) VerifyResult)) : Option (List VNode) :=
  match res with
  | some (.ok r) => some r.nodes
  | _ => none

section SanityChecks

-- C3 scenario: a/x is a regular FILE that is a table key; sibling key a/y matches.
example :
    statusAt (verifyDepTree
      (dOpsOfTree (.dir [("v", .dir [("a", .dir [("x", .file []), ("y", .dir [])])])]))
      (vStatOfTree (.dir [("v", .dir [("a", .dir [("x", .file []), ("y", .dir [])])])]))
      ["v"] [(["a", "x"], [1]), (["a", "y"], [97, 47, 121, 0])] 10 10) ["a", "x"] =
    some (some .NotInLock) := rfl

example :
    statusAt (verifyDepTree
      (dOpsOfTree (.dir [("v", .dir [("a", .dir [("x", .file []), ("y", .dir [])])])]))
      (vStatOfTree (.dir [("v", .dir [("a", .dir [("x", .file []), ("y", .dir [])])])]))
      ["v"] [(["a", "x"], [1]), (["a", "y"], [97, 47, 121, 0])] 10 10) ["a", "y"] =
    some (some .NoMismatch) := rfl

-- C4 scenario: s is a symlink to sibling empty dir d; empty table.
example :
    statusAt (verifyDepTree
      (dOpsOfTree (.dir [("v", .dir [("d", .dir []), ("s", .symlink ["v", "d"])])]))
      (vStatOfTree (.dir [("v", .dir [("d", .dir []), ("s", .symlink ["v", "d"])])]))
      ["v"] [] 10 10) ["s"] = some (some .NotInLock) := rfl

example :
    nodesOf (verifyDepTree
      (dOpsOfTree (.dir [("v", .dir [("d", .dir []), ("s", .symlink ["v", "d"])])]))
      (vStatOfTree (.dir [("v", .dir [("d", .dir []), ("s", .symlink ["v", "d"])])]))
      ["v"] [] 10 10) =
    some [⟨["v"], true, 0, -1⟩, ⟨["v", "d"], false, 1, 0⟩, ⟨["v", "s"], false, 2, 0⟩] := rfl

-- C5 positive example
example :
    statusAt (verifyDepTree
      (dOpsOfTree (.dir [("v", .dir [("a", .dir [("x", .dir []), ("y", .dir [])])])]))
      (vStatOfTree (.dir [("v", .dir [("a", .dir [("x", .dir []), ("y", .dir [])])])]))
      ["v"] [(["a", "x"], [97, 47, 120, 0])] 10 10) ["a", "y"] = some (some .NotInLock) := rfl

example :
    statusAt (verifyDepTree
      (dOpsOfTree (.dir [("v", .dir [("a", .dir [("x", .dir []), ("y", .dir [])])])]))
      (vStatOfTree (.dir [("v", .dir [("a", .dir [("x", .dir []), ("y", .dir [])])])]))
      ["v"] [(["a", "x"], [97, 47, 120, 0])] 10 10) ["a"] = some none := rfl

-- C5 counterexample scenario: a/y/z is a file-key under unexpected a/y.
example :
    statusAt (verifyDepTree
      (dOpsOfTree (.dir [("v", .dir [("a", .dir [("x", .dir []), ("y", .dir [("z", .file [])])])])]))
      (vStatOfTree (.dir [("v", .dir [("a", .dir [("x", .dir []), ("y", .dir [("z", .file [])])])])]))
      ["v"] [(["a", "x"], [97, 47, 120, 0]), (["a", "y", "z"], [5])] 10 10) ["a", "y", "z"] =
    some (some .NotInTree) := rfl

example :
    statusAt (verifyDepTree
      (dOpsOfTree (.dir [("v", .dir [("a", .dir [("x", .dir []), ("y", .dir [("z", .file [])])])])]))
      (vStatOfTree (.dir [("v", .dir [("a", .dir [("x", .dir []), ("y", .dir [("z", .file [])])])])]))
      ["v"] [(["a", "x"], [97, 47, 120, 0]), (["a", "y", "z"], [5])] 10 10) ["a", "y"] =
    some (some .NotInLock) := rfl

-- C8 concrete instance
example :
    statusAt (verifyDepTree
      (dOpsOfTree (.dir [("v", .dir [("p", .dir [("deep", .dir [])])])]))
      (vStatOfTree (.dir [("v", .dir [("p", .dir [("deep", .dir [])])])]))
      ["v"] [(["p"], [])] 3 3) ["p"] = some (some .EmptyDigestInLock) := rfl

end SanityChecks

/-! ## Supporting lemmas -/

theorem findCRLF_bound : ∀ (l : List Nat) (i : Nat), findCRLF l = some i → i + 2 ≤ l.length := by
  intro l
  induction l with
  | nil => intro i h; simp [findCRLF] at h
  | cons a t ih =>
    intro i h
    cases t with
    | nil => simp [findCRLF] at h
    | cons b t2 =>
      simp only [findCRLF] at h
      split at h
      · cases h; simp
      · obtain ⟨j, hj, rfl⟩ := Option.map_eq_some'.mp h
        have := ih j hj
        simp only [List.length_cons] at this ⊢
        omega

theorem crlfLoopF_ne_nil : ∀ (fuel : Nat) (b : List Nat) (p : Nat), b ≠ [] → crlfLoopF fuel b p ≠ [] := by
  intro fuel
  induction fuel with
  | zero => intro b p h; simpa [crlfLoopF] using h
  | succ f ih =>
    intro b p h
    simp only [crlfLoopF]
    split
    · exact h
    · next i hi =>
      apply ih
      have hb := findCRLF_bound _ _ hi
      simp only [List.length_drop] at hb
      intro hnil
      have hlen := congrArg List.length hnil
      simp only [List.length_eraseIdx, List.length_nil] at hlen
      split at hlen <;> omega

theorem crlfRemove_ne_nil (b : List Nat) (h : b ≠ []) : crlfRemove b ≠ [] :=
  crlfLoopF_ne_nil _ b 0 h

theorem ioCopyLoop_written :
    ∀ (fuel : Nat) (rest : List Nat) (p : Bool),
      (ioCopyLoop fuel rest p).2 = (ioCopyLoop fuel rest p).1.length := by
  intro fuel
  induction fuel with
  | zero => intro rest p; simp [ioCopyLoop]
  | succ f ih =>
    intro rest p
    simp only [ioCopyLoop]
    split
    · split <;> simp
    · simp [ih]

/-! ## Claim C1 -/

/-- C1: the claim states that for every byte stream and every split into
read fragments, the reader's concatenated output equals the input with
every CR LF collapsed to LF and lone CR and LF bytes untouched, no byte
dropped.  This is false: for the single-fragment stream
`X CR LF CR CR LF` the reader emits `X LF LF`, dropping the lone CR,
while the described transform yields `X LF CR LF`.  The cause is the
`prevIndex = index` assignment in the removal loop (digest.go line 194),
which resets the search position to a relative instead of an absolute
index, so a later search window re-covers an earlier lone CR that
became adjacent to an LF after a removal. -/
theorem lineEndingReader_drops_lone_CR :
    lineEndingOutput false [[88, 13, 10, 13, 13, 10]] = [88, 10, 10] ∧
    crlfToLF [88, 13, 10, 13, 13, 10] = [88, 10, 13, 10] ∧
    lineEndingOutput false [[88, 13, 10, 13, 13, 10]] ≠ crlfToLF [88, 13, 10, 13, 13, 10] :=
  ⟨by decide, by decide, by decide⟩

/-! ## Claim C7 -/

/-- C7: a tree with one file named `ab` containing `c` and a tree with
one file named `a` containing `bc` produce different digests: every field
fed to the hash is null-terminated, so the two pre-hash byte sequences
differ (the digest is the SHA-256 of this stream). -/
theorem digest_null_byte_separation :
    digestFromPathname (dOpsOfTree (.dir [("v", .dir [("t", .dir [("ab", .file [99])])])]))
        ["v"] ["t"] 10 = some (.ok [116, 0, 116, 47, 97, 98, 0, 99, 49, 0]) ∧
    digestFromPathname (dOpsOfTree (.dir [("v", .dir [("t", .dir [("a", .file [98, 99])])])]))
        ["v"] ["t"] 10 = some (.ok [116, 0, 116, 47, 97, 0, 98, 99, 50, 0]) ∧
    ([116, 0, 116, 47, 97, 98, 0, 99, 49, 0] : List Nat) ≠ [116, 0, 116, 47, 97, 0, 98, 99, 50, 0] :=
  ⟨rfl, rfl, by decide⟩

/-! ## Claim C3 -/

/-- The file system for the C3 evaluation: under the vendor root `v`,
directory `a` holds a regular file `x` and a directory `y`. -/
def fsC3 : FTree := .dir [("v", .dir [("a", .dir [("x", .file []), ("y", .dir [])])])]

/-- The expected-digest table for the C3 evaluation: `a/x` with a
nonempty digest, and `a/y` with the digest its on-disk subtree hashes
to. -/
def tableC3 : List (List String × List Nat) :=
  [(["a", "x"], [1]), (["a", "y"], [97, 47, 121, 0])]

/-- The C3 reconciliation run. -/
def runC3 : Option (Except (GoErr Unit) VerifyResult) :=
  verifyDepTree (dOpsOfTree fsC3) (vStatOfTree fsC3) ["v"] tableC3 10 10

/-- C3: the claim states that a table key is never assigned `NotInLock`.
This is false: `a/x` is a table key, exists on disk as a regular file,
and because its matched sibling `a/y` marks their parent `a` required
while a regular file is never popped from the queue (only directories
are) and hence never matched against the table, the backward pass
overwrites the key's `NotInTree` entry with `NotInLock`. -/
theorem verifyDepTree_key_gets_NotInLock :
    tLookup tableC3 ["a", "x"] = some [1] ∧
    statusAt runC3 ["a", "x"] = some (some .NotInLock) ∧
    statusAt runC3 ["a", "y"] = some (some .NoMismatch) :=
  ⟨rfl, rfl, rfl⟩

/-! ## Claim C4 -/

/-- The file system for the C4 evaluation: under the vendor root `v`, an
empty directory `d` and a symbolic link `s` whose target is `d`. -/
def fsC4 : FTree := .dir [("v", .dir [("d", .dir []), ("s", .symlink ["v", "d"])])]

/-- The C4 reconciliation run, with an empty expected table. -/
def runC4 : Option (Except (GoErr Unit) VerifyResult) :=
  verifyDepTree (dOpsOfTree fsC4) (vStatOfTree fsC4) ["v"] [] 10 10

/-- C4: the claim states that a child that is a symbolic link is skipped:
no node created, never traversed, no status.  This is false: the walk
stats children with `os.Stat` (digest.go line 412), which follows links,
so the mode's symlink bit is never set and the check at line 418 cannot
fire.  Here `s` is a symbolic link, yet a node is created for it, it is
traversed (it is the third node), and it receives status `NotInLock`. -/
theorem verifyDepTree_symlink_not_skipped :
    lookupT fsC4 ["v", "s"] = some (.symlink ["v", "d"]) ∧
    nodesOf runC4 =
      some [⟨["v"], true, 0, -1⟩, ⟨["v", "d"], false, 1, 0⟩, ⟨["v", "s"], false, 2, 0⟩] ∧
    statusAt runC4 ["s"] = some (some .NotInLock) :=
  ⟨rfl, rfl, rfl⟩

/-! ## Claim C8 -/

/-- C8: a table entry with a zero-length expected digest whose directory
is found on disk is recorded `EmptyDigestInLock` regardless of the
directory's actual content, no digest is recomputed for it, and its
children are not descended into.  The theorem quantifies over the
project's entire subtree `ch`: the run succeeds with digest fuel `0`
(so `DigestFromPathname` is provably never consulted) and walk fuel `3`
(constant, however deep `ch` is), and the node array stays at two nodes
(root and the project directory), so no child of `p` was created or
visited. -/
theorem verifyDepTree_empty_digest (ch : List (String × FTree)) :
    statusAt (verifyDepTree (dOpsOfTree (.dir [("v", .dir [("p", .dir ch)])]))
        (vStatOfTree (.dir [("v", .dir [("p", .dir ch)])])) ["v"] [(["p"], [])] 0 3) ["p"] =
      some (some .EmptyDigestInLock) ∧
    nodesOf (verifyDepTree (dOpsOfTree (.dir [("v", .dir [("p", .dir ch)])]))
        (vStatOfTree (.dir [("v", .dir [("p", .dir ch)])])) ["v"] [(["p"], [])] 0 3) =
      some [⟨["v"], true, 0, -1⟩, ⟨["v", "p"], true, 1, 0⟩] :=
  ⟨rfl, rfl⟩

/-! ## Claim C10 -/

/-- C10: with a destination buffer of length at least one, every buffer
slicing and indexing operation in `Read` stays in bounds for every
delivery the underlying source can make into the requested slice (the
request is `cap - 1` bytes when a CR is withheld, `cap` otherwise, and a
source may also deliver nothing): the checked model returns the
unchecked result.  In particular, after CRLF removals the effective
count stays at least one whenever the source delivered at least one
byte, so `buf[nr-1]` is in bounds.  The precondition is required: when a
CR is being withheld, a call with a zero-length buffer computes
`buflen = len(buf) - 1 = -1` and slices `buf[:-1]`, which panics. -/
theorem lineEndingRead_total :
    (∀ (prevCR : Bool) (cap : Nat) (chunk : List Nat),
        1 ≤ cap → chunk.length ≤ cap - (if prevCR then 1 else 0) →
        lineEndingReadChecked prevCR cap chunk = some (lineEndingRead prevCR chunk)) ∧
    lineEndingReadChecked true 0 [] = none := by
  refine ⟨?_, rfl⟩
  intro prevCR cap chunk hcap hlen
  simp only [lineEndingReadChecked, lineEndingRead]
  have hb : ¬ ((cap : Int) - (if prevCR then 1 else 0) < 0) := by
    have h1 : ((if prevCR then 1 else 0 : Int)) ≤ 1 := by cases prevCR <;> simp
    have h2 : (0 : Int) ≤ (if prevCR then 1 else 0) := by cases prevCR <;> simp
    omega
  rw [if_neg hb]
  by_cases hch : chunk.length > 0
  · rw [if_pos hch, if_pos hch]
    by_cases hpre : (prevCR && !(chunk.head? == some 10)) = true
    · have hcap2 : chunk.length + 1 ≤ cap := by
        have hpt : prevCR = true := by
          cases prevCR
          · simp at hpre
          · rfl
        rw [hpt] at hlen
        simp at hlen
        omega
      rw [if_pos hpre, if_pos hpre, if_pos hcap2]
      have hne := crlfRemove_ne_nil (13 :: chunk) (by simp)
      cases hgl : (crlfRemove (13 :: chunk)).getLast? with
      | none => exact absurd (List.getLast?_eq_none_iff.mp hgl) hne
      | some lb =>
        by_cases h13 : lb = 13
        · subst h13; simp [hgl]
        · simp [hgl, h13]
    · rw [if_neg hpre, if_neg hpre]
      have hnech : chunk ≠ [] := by
        intro h
        rw [h] at hch
        simp at hch
      have hne := crlfRemove_ne_nil chunk hnech
      cases hgl : (crlfRemove chunk).getLast? with
      | none => exact absurd (List.getLast?_eq_none_iff.mp hgl) hne
      | some lb =>
        by_cases h13 : lb = 13
        · subst h13; simp [hgl]
        · simp [hgl, h13]
  · rw [if_neg hch, if_neg hch]
    cases prevCR
    · simp
    · simp [hcap]

/-- Witness for C10: a one-byte buffer receiving a lone CR while a CR is
already withheld is handled in bounds. -/
theorem lineEndingRead_total_witness :
    lineEndingReadChecked true 1 [] = some (lineEndingRead true []) :=
  lineEndingRead_total.1 true 1 [] (by decide) (by decide)

/-! ## Claim C2 -/

/-- C2: for a regular file the bytes fed to the hash are the
prefix-stripped pathname and a null, then the file's contents as
transformed by the line-ending reader, then the decimal ASCII of the
byte count *after* that transform — `written` returned by `io.Copy`,
which provably equals the length of the transformed stream — then a
null byte.  The final conjunct exhibits a file (`a CR LF b`) whose
hashed count (3) differs from its raw on-disk size (4). -/
theorem digest_file_bytes :
    (∀ (ε : Type) (ops : DigestOps ε) (preLen : Nat) (p : List String) (contents : List Nat),
        ops.lstat p = .ok ⟨false, false, false⟩ →
        ops.openf p = .ok () →
        ops.readFull p = .ok contents →
        ops.closef p = none →
        digestVisit ops preLen p =
          .ok (writeBytesWithNull [] (joinSlash (p.drop preLen)) ++
                ((ioCopyNorm contents).1 ++ decBytes (ioCopyNorm contents).1.length ++ [0]), [])) ∧
    (ioCopyNorm [97, 13, 10, 98]).1.length ≠ ([97, 13, 10, 98] : List Nat).length := by
  constructor
  · intro ε ops preLen p contents hl ho hr hc
    have hw : (ioCopyNorm contents).2 = (ioCopyNorm contents).1.length :=
      ioCopyLoop_written _ _ _
    simp only [digestVisit, hl, ho, hr, hc, fileHashBytes, hw]
    simp
  · decide

/-- Witness for C2: a concrete file containing `a CR LF b`. -/
theorem digest_file_bytes_witness :
    digestVisit (dOpsOfTree (.dir [("f", .file [97, 13, 10, 98])])) 0 ["f"] =
      .ok ([102, 0, 97, 10, 98, 51, 0], []) := by
  have h := digest_file_bytes.1 Unit (dOpsOfTree (.dir [("f", .file [97, 13, 10, 98])])) 0 ["f"]
      [97, 13, 10, 98] rfl rfl rfl rfl
  rw [h]
  rfl

/-! ## Claim C9 -/

/-- C9: digesting never returns a partial result (the loop's only
outcomes are a complete stream, an error, or fuel exhaustion of the
model), each failing operation aborts the walk with an error naming it,
and close errors are handled by precedence: a failing operation's error
is what is reported no matter what the subsequent close does, while a
close failure after a successful operation becomes the reported error.
Conjuncts: (1) an error at the head node aborts the whole walk with that
error; (2) `Lstat` failure names `Lstat`; (3) a file read failure is
reported as the `Copy` error whatever `closef` returns; (4) a close
failure after a successful read becomes the `Close` error; (5) a
directory listing failure is reported whatever `closef` returns; (6) a
successful listing followed by a close failure becomes the `Close`
error; (7)-(9) the same discipline in
`sortedListOfDirectoryChildrenFromPathname`: open failure, listing
failure taking precedence over close, close failure after success;
(10) a `Readlink` failure on a symbolic link names `Readlink` (digest.go
lines 91-94); (11) an `Open` failure in `DigestFromPathname` itself, for
any non-skipped non-symlink node (directory or regular file), names
`Open` (digest.go lines 103-106). -/
theorem digest_error_first_wins :
    (∀ (ε : Type) (ops : DigestOps ε) (preLen fuel : Nat) (q : List String)
        (queue : List (List String)) (acc : List Nat) (e : GoErr ε),
        digestVisit ops preLen q = .error e →
        digestLoop ops preLen (fuel + 1) (q :: queue) acc = some (.error e)) ∧
    (∀ (ε : Type) (ops : DigestOps ε) (preLen : Nat) (p : List String) (e : ε),
        ops.lstat p = .error e →
        digestVisit ops preLen p = .error (.wrap "cannot Lstat" (.base e))) ∧
    (∀ (ε : Type) (ops : DigestOps ε) (preLen : Nat) (p : List String) (e : ε),
        ops.lstat p = .ok ⟨false, false, false⟩ →
        ops.openf p = .ok () →
        ops.readFull p = .error e →
        digestVisit ops preLen p = .error (.wrap "cannot Copy" (.base e))) ∧
    (∀ (ε : Type) (ops : DigestOps ε) (preLen : Nat) (p : List String)
        (contents : List Nat) (e : ε),
        ops.lstat p = .ok ⟨false, false, false⟩ →
        ops.openf p = .ok () →
        ops.readFull p = .ok contents →
        ops.closef p = some e →
        digestVisit ops preLen p = .error (.wrap "cannot Close" (.base e))) ∧
    (∀ (ε : Type) (ops : DigestOps ε) (preLen : Nat) (p : List String) (e : ε),
        ops.lstat p = .ok ⟨true, false, false⟩ →
        ops.openf p = .ok () →
        ops.readdirnames p = .error e →
        digestVisit ops preLen p =
          .error (.wrap "cannot get list of directory children"
            (.wrap "cannot Readdirnames" (.base e)))) ∧
    (∀ (ε : Type) (ops : DigestOps ε) (preLen : Nat) (p : List String)
        (names : List String) (e : ε),
        ops.lstat p = .ok ⟨true, false, false⟩ →
        ops.openf p = .ok () →
        ops.readdirnames p = .ok names →
        ops.closef p = some e →
        digestVisit ops preLen p = .error (.wrap "cannot Close" (.base e))) ∧
    (∀ (ε : Type) (ops : DigestOps ε) (p : List String) (e : ε),
        ops.openf p = .error e →
        sortedChildrenFromPathname ops p = .error (.wrap "cannot Open" (.base e))) ∧
    (∀ (ε : Type) (ops : DigestOps ε) (p : List String) (e : ε),
        ops.openf p = .ok () →
        ops.readdirnames p = .error e →
        sortedChildrenFromPathname ops p = .error (.wrap "cannot Readdirnames" (.base e))) ∧
    (∀ (ε : Type) (ops : DigestOps ε) (p : List String) (names : List String) (e : ε),
        ops.openf p = .ok () →
        ops.readdirnames p = .ok names →
        ops.closef p = some e →
        sortedChildrenFromPathname ops p = .error (.wrap "cannot Close" (.base e))) ∧
    (∀ (ε : Type) (ops : DigestOps ε) (preLen : Nat) (p : List String) (e : ε),
        ops.lstat p = .ok ⟨false, true, false⟩ →
        ops.readlink p = .error e →
        digestVisit ops preLen p = .error (.wrap "cannot Readlink" (.base e))) ∧
    (∀ (ε : Type) (ops : DigestOps ε) (preLen : Nat) (p : List String) (d : Bool) (e : ε),
        ops.lstat p = .ok ⟨d, false, false⟩ →
        ops.openf p = .error e →
        digestVisit ops preLen p = .error (.wrap "cannot Open" (.base e))) := by
  refine ⟨?_, ?_, ?_, ?_, ?_, ?_, ?_, ?_, ?_, ?_, ?_⟩
  · intro ε ops preLen fuel q queue acc e hv
    simp [digestLoop, hv]
  · intro ε ops preLen p e hl
    simp [digestVisit, hl]
  · intro ε ops preLen p e hl ho hr
    simp [digestVisit, hl, ho, hr]
  · intro ε ops preLen p contents e hl ho hr hc
    simp [digestVisit, hl, ho, hr, hc]
  · intro ε ops preLen p e hl ho hr
    simp [digestVisit, sortedChildrenFromHandle, hl, ho, hr]
  · intro ε ops preLen p names e hl ho hr hc
    simp [digestVisit, sortedChildrenFromHandle, hl, ho, hr, hc]
  · intro ε ops p e ho
    simp [sortedChildrenFromPathname, ho]
  · intro ε ops p e ho hr
    simp [sortedChildrenFromPathname, sortedChildrenFromHandle, ho, hr]
  · intro ε ops p names e ho hr hc
    simp [sortedChildrenFromPathname, sortedChildrenFromHandle, ho, hr, hc]
  · intro ε ops preLen p e hl hrl
    simp [digestVisit, hl, hrl]
  · intro ε ops preLen p d e hl ho
    cases d <;> simp [digestVisit, hl, ho]

/-- The failing file-system operations used to witness C9: every read
fails and every close fails, with distinguishable error values. -/
def failOps : DigestOps String where
  lstat _ := .ok ⟨false, false, false⟩
  readlink _ := .error "readlink failed"
  openf _ := .ok ()
  readdirnames _ := .error "readdirnames failed"
  readFull _ := .error "read failed"
  closef _ := some "close failed"

/-- Failing operations where every node is a symbolic link whose
referent cannot be read, used to witness the Readlink conjunct of C9. -/
def failLinkOps : DigestOps String where
  lstat _ := .ok ⟨false, true, false⟩
  readlink _ := .error "readlink failed"
  openf _ := .ok ()
  readdirnames _ := .error "readdirnames failed"
  readFull _ := .error "read failed"
  closef _ := some "close failed"

/-- Failing operations where every node is a directory that cannot be
opened, used to witness the Open conjunct of C9. -/
def failOpenOps : DigestOps String where
  lstat _ := .ok ⟨true, false, false⟩
  readlink _ := .error "readlink failed"
  openf _ := .error "open failed"
  readdirnames _ := .error "readdirnames failed"
  readFull _ := .error "read failed"
  closef _ := some "close failed"

/-- Witness for C9: on `failOps` the read error is reported and the
close error (also present) is discarded, and the whole walk aborts with
that error; on `failLinkOps` a failing `Readlink` is reported by name;
on `failOpenOps` a failing `Open` is reported by name. -/
theorem digest_error_first_wins_witness :
    digestVisit failOps 0 ["f"] = .error (.wrap "cannot Copy" (.base "read failed")) ∧
    digestLoop failOps 0 5 [["f"]] [] =
      some (.error (.wrap "cannot Copy" (.base "read failed"))) ∧
    digestVisit failLinkOps 0 ["s"] =
      .error (.wrap "cannot Readlink" (.base "readlink failed")) ∧
    digestVisit failOpenOps 0 ["d"] =
      .error (.wrap "cannot Open" (.base "open failed")) := by
  have h1 := digest_error_first_wins.2.2.1 String failOps 0 ["f"] "read failed" rfl rfl rfl
  refine ⟨h1, digest_error_first_wins.1 String failOps 0 4 ["f"] [] [] _ h1, ?_, ?_⟩
  · exact digest_error_first_wins.2.2.2.2.2.2.2.2.2.1 String failLinkOps 0 ["s"]
      "readlink failed" rfl rfl
  · exact digest_error_first_wins.2.2.2.2.2.2.2.2.2.2 String failOpenOps 0 ["d"] true
      "open failed" rfl rfl

/-! ## Claim C6 -/

theorem lookupT_append : ∀ (p q : List String) (fs : FTree),
    lookupT fs (p ++ q) = (lookupT fs p).bind (fun t => lookupT t q) := by
  intro p
  induction p with
  | nil => intro q fs; simp [lookupT]
  | cons n p2 ih =>
    intro q fs
    cases fs with
    | dir ch =>
      simp only [List.cons_append, lookupT]
      cases h : ch.find? (fun kv => kv.1 == n) with
      | none => simp
      | some kv => simp [ih]
    | file c => simp [lookupT]
    | symlink t => simp [lookupT]
    | special => simp [lookupT]

/-- One visit of the digest walk at corresponding pathnames under two
prefixes of byte-identical subtrees: either both abort with the same
error, or both emit the same bytes and enqueue the same child names. -/
theorem digestVisit_shift (fsA fsB : FTree) (pA pB rel : List String)
    (H : ∀ s, lookupT fsA (pA ++ (rel ++ s)) = lookupT fsB (pB ++ (rel ++ s)))
    (s : List String) :
    (∃ e, digestVisit (dOpsOfTree fsA) pA.length (pA ++ (rel ++ s)) = .error e ∧
        digestVisit (dOpsOfTree fsB) pB.length (pB ++ (rel ++ s)) = .error e) ∨
    (∃ (bytes : List Nat) (kidNames : List String),
        digestVisit (dOpsOfTree fsA) pA.length (pA ++ (rel ++ s)) =
          .ok (bytes, kidNames.map (fun n => pA ++ ((rel ++ s) ++ [n]))) ∧
        digestVisit (dOpsOfTree fsB) pB.length (pB ++ (rel ++ s)) =
          .ok (bytes, kidNames.map (fun n => pB ++ ((rel ++ s) ++ [n])))) := by
  have h0 := H s
  have hdropA : (pA ++ (rel ++ s)).drop pA.length = rel ++ s := List.drop_left pA _
  have hdropB : (pB ++ (rel ++ s)).drop pB.length = rel ++ s := List.drop_left pB _
  cases hA0 : lookupT fsA (pA ++ (rel ++ s)) with
  | none =>
    have hB0 : lookupT fsB (pB ++ (rel ++ s)) = none := h0.symm.trans hA0
    left
    refine ⟨.wrap "cannot Lstat" (.base ()), ?_, ?_⟩
    · simp [digestVisit, dOpsOfTree, hA0]
    · simp [digestVisit, dOpsOfTree, hB0]
  | some t =>
    have hB0 : lookupT fsB (pB ++ (rel ++ s)) = some t := h0.symm.trans hA0
    cases t with
    | special =>
      right
      refine ⟨[], [], ?_, ?_⟩
      · simp [digestVisit, dOpsOfTree, hA0]
      · simp [digestVisit, dOpsOfTree, hB0]
    | symlink tgt =>
      right
      refine ⟨writeBytesWithNull (writeBytesWithNull [] (joinSlash (rel ++ s)))
          (strBytes (String.intercalate "/" tgt)), [], ?_, ?_⟩
      · simp [digestVisit, dOpsOfTree, hA0, hdropA]
      · simp [digestVisit, dOpsOfTree, hB0, hdropB]
    | file c =>
      right
      have hrA : resolveT fsA 40 (pA ++ (rel ++ s)) = some (.file c) := by
        show resolveT fsA (39 + 1) (pA ++ (rel ++ s)) = some (.file c)
        simp [resolveT, hA0]
      have hrB : resolveT fsB 40 (pB ++ (rel ++ s)) = some (.file c) := by
        show resolveT fsB (39 + 1) (pB ++ (rel ++ s)) = some (.file c)
        simp [resolveT, hB0]
      refine ⟨writeBytesWithNull [] (joinSlash (rel ++ s)) ++ fileHashBytes c, [], ?_, ?_⟩
      · simp [digestVisit, dOpsOfTree, hA0, hrA, hdropA]
      · simp [digestVisit, dOpsOfTree, hB0, hrB, hdropB]
    | dir ch =>
      right
      have hrA : resolveT fsA 40 (pA ++ (rel ++ s)) = some (.dir ch) := by
        show resolveT fsA (39 + 1) (pA ++ (rel ++ s)) = some (.dir ch)
        simp [resolveT, hA0]
      have hrB : resolveT fsB 40 (pB ++ (rel ++ s)) = some (.dir ch) := by
        show resolveT fsB (39 + 1) (pB ++ (rel ++ s)) = some (.dir ch)
        simp [resolveT, hB0]
      refine ⟨writeBytesWithNull [] (joinSlash (rel ++ s)),
          (sortStrs (ch.map (fun kv => kv.1))).filter (fun n => !(skipName n)), ?_, ?_⟩
      · simp [digestVisit, dOpsOfTree, sortedChildrenFromHandle, hA0, hrA, hdropA,
          List.append_assoc]
      · simp [digestVisit, dOpsOfTree, sortedChildrenFromHandle, hB0, hrB, hdropB,
          List.append_assoc]

/-- The digest loop at corresponding queues under the two prefixes. -/
theorem digestLoop_shift (fsA fsB : FTree) (pA pB rel : List String)
    (H : ∀ s, lookupT fsA (pA ++ (rel ++ s)) = lookupT fsB (pB ++ (rel ++ s))) :
    ∀ (fuel : Nat) (rq : List (List String)) (acc : List Nat),
      (∀ q ∈ rq, ∃ s, q = rel ++ s) →
      digestLoop (dOpsOfTree fsA) pA.length fuel (rq.map (fun q => pA ++ q)) acc =
      digestLoop (dOpsOfTree fsB) pB.length fuel (rq.map (fun q => pB ++ q)) acc := by
  intro fuel
  induction fuel with
  | zero =>
    intro rq acc hrq
    cases rq <;> simp [digestLoop]
  | succ f ih =>
    intro rq acc hrq
    cases rq with
    | nil => simp [digestLoop]
    | cons q rq2 =>
      obtain ⟨s, rfl⟩ := hrq q (by simp)
      rcases digestVisit_shift fsA fsB pA pB rel H s with ⟨e, hA, hB⟩ | ⟨bytes, kidNames, hA, hB⟩
      · simp [digestLoop, hA, hB]
      · simp only [List.map_cons, digestLoop, hA, hB]
        have hqA : List.map (fun q => pA ++ q) rq2 ++
              List.map (fun n => pA ++ ((rel ++ s) ++ [n])) kidNames =
            List.map (fun q => pA ++ q) (rq2 ++ List.map (fun n => (rel ++ s) ++ [n]) kidNames) := by
          simp [List.map_append, Function.comp_def]
        have hqB : List.map (fun q => pB ++ q) rq2 ++
              List.map (fun n => pB ++ ((rel ++ s) ++ [n])) kidNames =
            List.map (fun q => pB ++ q) (rq2 ++ List.map (fun n => (rel ++ s) ++ [n]) kidNames) := by
          simp [List.map_append, Function.comp_def]
        rw [hqA, hqB]
        apply ih
        intro q hq2
        rcases List.mem_append.mp hq2 with h | h
        · exact hrq q (List.mem_cons_of_mem _ h)
        · obtain ⟨n, hn, rfl⟩ := List.mem_map.mp h
          exact ⟨s ++ [n], by simp⟩

/-- C6: the digest is independent of the absolute location of the tree:
whenever the subtrees of the two file systems rooted at `rel` under the
two prefixes are identical (same lookups for every suffix, hence same
relative pathnames, symlink targets and file contents), the byte streams
fed to the hash — and therefore the digests — coincide. -/
theorem digest_path_independent (fsA fsB : FTree) (pA pB rel : List String) (fuel : Nat)
    (H : ∀ s, lookupT fsA (pA ++ (rel ++ s)) = lookupT fsB (pB ++ (rel ++ s))) :
    digestFromPathname (dOpsOfTree fsA) pA rel fuel =
    digestFromPathname (dOpsOfTree fsB) pB rel fuel := by
  have h := digestLoop_shift fsA fsB pA pB rel H fuel [rel] []
    (by
      intro q hq
      simp only [List.mem_singleton] at hq
      exact ⟨[], by simp [hq]⟩)
  simpa [digestFromPathname] using h

/-- The subtree shared by the two file systems of the C6 witness. -/
def subC6 : FTree := .dir [("t", .dir [("f", .file [104])])]

/-- Witness for C6: the same project subtree placed under a one-component
prefix and under a two-component prefix digests identically. -/
theorem digest_path_independent_witness :
    digestFromPathname (dOpsOfTree (.dir [("va", subC6)])) ["va"] ["t"] 10 =
    digestFromPathname (dOpsOfTree (.dir [("vb", .dir [("w", subC6)])])) ["vb", "w"] ["t"] 10 :=
  digest_path_independent (.dir [("va", subC6)]) (.dir [("vb", .dir [("w", subC6)])])
    ["va"] ["vb", "w"] ["t"] 10
    (by
      intro s
      rw [show (["va"] : List String) ++ (["t"] ++ s) = (["va"] ++ ["t"]) ++ s by simp,
        show (["vb", "w"] : List String) ++ (["t"] ++ s) = (["vb", "w"] ++ ["t"]) ++ s by simp,
        lookupT_append, lookupT_append]
      rfl)

/-! ## Claim C5: lemmas about the backward pass -/

theorem setStatus_lookup (m : StatusMap) (k : List String) (v : VendorStatus) (j : List String) :
    setStatus m k v j = if j = k then some v else m j := by
  simp [setStatus]

/-- The condition under which the backward pass records `NotInLock` for
node `k` under path `p`. -/
def nlCond (nodes : List VNode) (rootLen : Nat) (k : Nat) (p : List String) : Prop :=
  ∃ h : k < nodes.length,
    (nodes.get ⟨k, h⟩).isRequiredAncestor = false ∧
    parentReqAt nodes (nodes.get ⟨k, h⟩) = true ∧
    (nodes.get ⟨k, h⟩).pathname.drop rootLen = p

/-- A path holds `NotInLock` after the backward pass exactly when some
node in range `1..i` satisfies the not-required-with-required-parent
condition at that path, or the status already held `NotInLock`. -/
theorem backwardPass_status (nodes : List VNode) (rootLen : Nat) :
    ∀ (i : Nat) (status : StatusMap) (log : List (Nat × VendorStatus)) (p : List String),
      ((backwardPass nodes rootLen i status log).1 p = some .NotInLock ↔
        ((∃ k, 1 ≤ k ∧ k ≤ i ∧ nlCond nodes rootLen k p) ∨ status p = some .NotInLock)) := by
  intro i
  induction i with
  | zero =>
    intro status log p
    simp only [backwardPass]
    constructor
    · intro h; exact Or.inr h
    · rintro (⟨k, hk1, hk2, _⟩ | h)
      · omega
      · exact h
  | succ i0 ih =>
    intro status log p
    simp only [backwardPass]
    split
    case _ hget =>
      rw [ih]
      constructor
      · rintro (⟨k, hk1, hk2, hc⟩ | h)
        · exact Or.inl ⟨k, hk1, by omega, hc⟩
        · exact Or.inr h
      · rintro (⟨k, hk1, hk2, hc⟩ | h)
        · obtain ⟨hklen, hc⟩ := hc
          have hnone : nodes.length ≤ Nat.succ i0 := by
            by_contra hcon
            rw [List.get?_eq_get (by omega)] at hget
            exact Option.noConfusion hget
          exact Or.inl ⟨k, hk1, by omega, hklen, hc⟩
        · exact Or.inr h
    case _ nd hget =>
      obtain ⟨hlen, hnd⟩ := List.get?_eq_some.mp hget
      by_cases hcond : (!nd.isRequiredAncestor && parentReqAt nodes nd) = true
      · rw [if_pos hcond, ih]
        obtain ⟨hreq, hpar⟩ : nd.isRequiredAncestor = false ∧ parentReqAt nodes nd = true := by
          simpa [Bool.and_eq_true, Bool.not_eq_true'] using hcond
        rw [setStatus_lookup]
        constructor
        · rintro (⟨k, hk1, hk2, hc⟩ | h)
          · exact Or.inl ⟨k, hk1, by omega, hc⟩
          · by_cases hp : p = nd.pathname.drop rootLen
            · refine Or.inl ⟨Nat.succ i0, by omega, by omega, hlen, ?_, ?_, ?_⟩
              · rw [hnd]; exact hreq
              · rw [hnd]; exact hpar
              · rw [hnd, hp]
            · rw [if_neg hp] at h
              exact Or.inr h
        · rintro (⟨k, hk1, hk2, hc⟩ | h)
          · rcases Nat.lt_succ_iff_lt_or_eq.mp (Nat.lt_succ_of_le hk2) with hlt | heq
            · exact Or.inl ⟨k, hk1, by omega, hc⟩
            · subst heq
              obtain ⟨hklen, _, _, hdrop⟩ := hc
              right
              rw [if_pos (by rw [← hdrop, hnd])]
          · right
            by_cases hp : p = nd.pathname.drop rootLen
            · rw [if_pos hp]
            · rw [if_neg hp]; exact h
      · rw [if_neg hcond, ih]
        constructor
        · rintro (⟨k, hk1, hk2, hc⟩ | h)
          · exact Or.inl ⟨k, hk1, by omega, hc⟩
          · exact Or.inr h
        · rintro (⟨k, hk1, hk2, hc⟩ | h)
          · rcases Nat.lt_succ_iff_lt_or_eq.mp (Nat.lt_succ_of_le hk2) with hlt | heq
            · exact Or.inl ⟨k, hk1, by omega, hc⟩
            · subst heq
              obtain ⟨hklen, hr, hq, _⟩ := hc
              exfalso
              apply hcond
              have hget2 : nodes.get ⟨Nat.succ i0, hklen⟩ = nd := hnd
              simp only [Bool.and_eq_true, Bool.not_eq_true', ← hget2]
              exact ⟨hr, hq⟩
          · exact Or.inr h

/-- Membership in the log after the backward pass: an entry is either an
original one or names a node satisfying the backward condition. -/
theorem backwardPass_log_mem (nodes : List VNode) (rootLen : Nat) :
    ∀ (i : Nat) (status : StatusMap) (log : List (Nat × VendorStatus)) (e : Nat × VendorStatus),
      e ∈ (backwardPass nodes rootLen i status log).2 →
      e ∈ log ∨
        (∃ h : e.1 < nodes.length,
          (nodes.get ⟨e.1, h⟩).isRequiredAncestor = false ∧
          parentReqAt nodes (nodes.get ⟨e.1, h⟩) = true) := by
  intro i
  induction i with
  | zero =>
    intro status log e he
    simp only [backwardPass] at he
    exact Or.inl he
  | succ i0 ih =>
    intro status log e he
    simp only [backwardPass] at he
    split at he
    case _ hget => exact ih _ _ _ he
    case _ nd hget =>
      obtain ⟨hlen, hnd⟩ := List.get?_eq_some.mp hget
      by_cases hcond : (!nd.isRequiredAncestor && parentReqAt nodes nd) = true
      · rw [if_pos hcond] at he
        rcases ih _ _ _ he with hin | hc
        · rcases List.mem_append.mp hin with h1 | h2
          · exact Or.inl h1
          · simp only [List.mem_singleton] at h2
            subst h2
            obtain ⟨hreq, hpar⟩ : nd.isRequiredAncestor = false ∧ parentReqAt nodes nd = true := by
              simpa [Bool.and_eq_true, Bool.not_eq_true'] using hcond
            exact Or.inr ⟨hlen, by rw [hnd]; exact hreq, by rw [hnd]; exact hpar⟩
        · exact Or.inr hc
      · rw [if_neg hcond] at he
        exact ih _ _ _ he

/-- The required flag of the node at a possibly negative index. -/
def reqAtI (ns : List VNode) (i : Int) : Bool :=
  match getNode ns i with
  | some nd => nd.isRequiredAncestor
  | none => false

theorem parentReqAt_eq_reqAtI (ns : List VNode) (nd : VNode) :
    parentReqAt ns nd = reqAtI ns nd.parentIndex := rfl

/-- Upward closure of the required flag along parent indices: a required
node's parent (when it has one) is required. -/
def UpClosed (ns : List VNode) : Prop :=
  ∀ (i : Nat) (nd : VNode), ns.get? i = some nd → nd.isRequiredAncestor = true →
    reqAtI ns nd.parentIndex = true ∨ nd.parentIndex < 0

/-- Parent indices of walk-created nodes strictly precede the node. -/
def ParentLt (ns : List VNode) : Prop :=
  ∀ (i : Nat) (nd : VNode), ns.get? i = some nd → nd.parentIndex < (i : Int)

/-- Node `myIndex` fields agree with positions in the array. -/
def IdxOk (ns : List VNode) : Prop :=
  ∀ (i : Nat) (nd : VNode), ns.get? i = some nd → nd.myIndex = i

/-- Under upward closure, a required chain start makes every node of the
ancestor chain required. -/
theorem ancChain_req (ns : List VNode) (hup : UpClosed ns) :
    ∀ (fuel : Nat) (pni : Int), reqAtI ns pni = true →
      ∀ k ∈ ancChainF ns fuel pni,
        ∃ nd : VNode, ns.get? k = some nd ∧ nd.isRequiredAncestor = true := by
  intro fuel
  induction fuel with
  | zero =>
    intro pni hreq k hk
    simp [ancChainF] at hk
  | succ f ih =>
    intro pni hreq k hk
    simp only [ancChainF] at hk
    by_cases hneg : pni < 0
    · rw [if_pos hneg] at hk
      simp at hk
    · rw [if_neg hneg] at hk
      cases hget : ns.get? pni.toNat with
      | none =>
        rw [hget] at hk
        simp at hk
      | some nd =>
        rw [hget] at hk
        simp only [List.mem_cons] at hk
        have hndreq : nd.isRequiredAncestor = true := by
          simp only [reqAtI, getNode, if_neg hneg, hget] at hreq
          exact hreq
        rcases hk with rfl | htail
        · exact ⟨nd, hget, hndreq⟩
        · rcases hup pni.toNat nd hget hndreq with hpar | hparneg
          · exact ih nd.parentIndex hpar k htail
          · exfalso
            cases f with
            | zero => simp [ancChainF] at htail
            | succ f2 => simp [ancChainF, if_pos hparneg] at htail

/-! ## Claim C5: lemmas about the marking loop -/

theorem markChain_length : ∀ (fuel : Nat) (ns : List VNode) (pni : Int),
    (markChain fuel ns pni).length = ns.length := by
  intro fuel
  induction fuel with
  | zero => intro ns pni; rfl
  | succ f ih =>
    intro ns pni
    simp only [markChain]
    split
    · rfl
    · split
      · rfl
      · rw [ih, List.length_set]

/-- Marking preserves every field but the required flag, and only ever
raises that flag. -/
theorem markChain_get? : ∀ (fuel : Nat) (ns : List VNode) (pni : Int) (i : Nat) (nd' : VNode),
    (markChain fuel ns pni).get? i = some nd' →
    ∃ nd : VNode, ns.get? i = some nd ∧ nd'.pathname = nd.pathname ∧
      nd'.myIndex = nd.myIndex ∧ nd'.parentIndex = nd.parentIndex ∧
      (nd.isRequiredAncestor = true → nd'.isRequiredAncestor = true) := by
  intro fuel
  induction fuel with
  | zero =>
    intro ns pni i nd' h
    exact ⟨nd', h, rfl, rfl, rfl, fun hh => hh⟩
  | succ f ih =>
    intro ns pni i nd' h
    simp only [markChain] at h
    split at h
    · exact ⟨nd', h, rfl, rfl, rfl, fun hh => hh⟩
    · split at h
      · exact ⟨nd', h, rfl, rfl, rfl, fun hh => hh⟩
      · next hneg nd0 hget =>
        obtain ⟨ndm, hm, hp1, hp2, hp3, hp4⟩ := ih _ _ _ _ h
        by_cases hi : pni.toNat = i
        · subst hi
          rw [List.get?_set_eq_of_lt _ (List.get?_eq_some.mp hget).1] at hm
          cases hm
          exact ⟨nd0, hget, hp1, hp2, hp3, fun _ => hp4 rfl⟩
        · rw [List.get?_set_ne _ _ hi] at hm
          exact ⟨ndm, hm, hp1, hp2, hp3, hp4⟩

/-- Marking only raises required flags: a flag set before stays set. -/
theorem markChain_mono (fuel : Nat) (ns : List VNode) (pni : Int) (i : Nat) (nd : VNode)
    (hget : ns.get? i = some nd) (hreq : nd.isRequiredAncestor = true) :
    ∃ nd' : VNode, (markChain fuel ns pni).get? i = some nd' ∧
      nd'.isRequiredAncestor = true ∧ nd'.pathname = nd.pathname ∧
      nd'.myIndex = nd.myIndex ∧ nd'.parentIndex = nd.parentIndex := by
  have hlen : i < (markChain fuel ns pni).length := by
    rw [markChain_length]
    exact (List.get?_eq_some.mp hget).1
  cases hres : (markChain fuel ns pni).get? i with
  | none =>
    rw [List.get?_eq_none] at hres
    omega
  | some nd' =>
    obtain ⟨nd0, hget0, hp1, hp2, hp3, hp4⟩ := markChain_get? fuel ns pni i nd' hres
    rw [hget] at hget0
    cases hget0
    exact ⟨nd', rfl, hp4 hreq, hp1, hp2, hp3⟩

/-- After marking from a valid start index, the start node is required. -/
theorem markChain_marks_start : ∀ (fuel : Nat) (ns : List VNode) (pni : Int),
    1 ≤ fuel → ¬ pni < 0 → pni.toNat < ns.length →
    reqAtI (markChain fuel ns pni) pni = true := by
  intro fuel ns pni hf hneg hlen
  cases fuel with
  | zero => omega
  | succ f =>
    simp only [markChain]
    rw [if_neg hneg]
    split
    · next hget =>
      rw [List.get?_eq_none] at hget
      omega
    · next nd hget =>
      have hset : (ns.set pni.toNat { nd with isRequiredAncestor := true }).get? pni.toNat =
          some { nd with isRequiredAncestor := true } :=
        List.get?_set_eq_of_lt _ hlen
      obtain ⟨nd', hres, hreq', _, _, _⟩ :=
        markChain_mono f (ns.set pni.toNat { nd with isRequiredAncestor := true })
          nd.parentIndex pni.toNat { nd with isRequiredAncestor := true } hset rfl
      simp only [reqAtI, getNode, if_neg hneg, hres]
      exact hreq'

/-- Upward closure with one pending exception: closure may fail only for
nodes whose parent is the index about to be marked. -/
def UpClosedE (ns : List VNode) (pend : Int) : Prop :=
  ∀ (i : Nat) (nd : VNode), ns.get? i = some nd → nd.isRequiredAncestor = true →
    reqAtI ns nd.parentIndex = true ∨ nd.parentIndex < 0 ∨ nd.parentIndex = pend

/-- Setting one node's required flag preserves every set flag. -/
theorem reqAtI_set_mark (ns : List VNode) (k : Nat) (ndk : VNode) (hk : ns.get? k = some ndk)
    (j : Int) (hj : reqAtI ns j = true) :
    reqAtI (ns.set k { ndk with isRequiredAncestor := true }) j = true := by
  simp only [reqAtI, getNode] at hj ⊢
  by_cases hneg : j < 0
  · rw [if_pos hneg] at hj
    simp at hj
  · rw [if_neg hneg] at hj ⊢
    by_cases hjk : k = j.toNat
    · subst hjk
      rw [List.get?_set_eq_of_lt _ (List.get?_eq_some.mp hk).1]
    · rw [List.get?_set_ne _ _ hjk]
      exact hj

/-- Marking a full chain restores plain upward closure, provided parent
indices decrease and the fuel covers the start index. -/
theorem markChain_upClosed : ∀ (fuel : Nat) (ns : List VNode) (pni : Int),
    ParentLt ns → UpClosedE ns pni →
    (pni < 0 ∨ (pni.toNat < ns.length ∧ pni.toNat + 1 ≤ fuel)) →
    UpClosed (markChain fuel ns pni) := by
  intro fuel
  induction fuel with
  | zero =>
    intro ns pni _ hup hok
    have hneg : pni < 0 := by
      rcases hok with h | ⟨_, h⟩
      · exact h
      · omega
    intro i nd hget hreq
    rcases hup i nd hget hreq with h | h | h
    · exact Or.inl h
    · exact Or.inr h
    · exact Or.inr (h ▸ hneg)
  | succ f ih =>
    intro ns pni hplt hup hok
    by_cases hneg : pni < 0
    · simp only [markChain]
      rw [if_pos hneg]
      intro i nd hget hreq
      rcases hup i nd hget hreq with h | h | h
      · exact Or.inl h
      · exact Or.inr h
      · exact Or.inr (h ▸ hneg)
    · have hlen : pni.toNat < ns.length := by
        rcases hok with h | ⟨h, _⟩
        · exact absurd h hneg
        · exact h
      have hfuel : pni.toNat + 1 ≤ f + 1 := by
        rcases hok with h | ⟨_, h⟩
        · exact absurd h hneg
        · exact h
      simp only [markChain]
      rw [if_neg hneg]
      split
      · next hget =>
        rw [List.get?_eq_none] at hget
        omega
      · next nd hget =>
        apply ih
        · intro i ndi hgeti
          by_cases hik : pni.toNat = i
          · subst hik
            rw [List.get?_set_eq_of_lt _ hlen] at hgeti
            cases hgeti
            exact hplt pni.toNat nd hget
          · rw [List.get?_set_ne _ _ hik] at hgeti
            exact hplt _ _ hgeti
        · intro i ndi hgeti hreqi
          by_cases hik : pni.toNat = i
          · subst hik
            rw [List.get?_set_eq_of_lt _ hlen] at hgeti
            cases hgeti
            exact Or.inr (Or.inr rfl)
          · rw [List.get?_set_ne _ _ hik] at hgeti
            rcases hup i ndi hgeti hreqi with h | h | h
            · exact Or.inl (reqAtI_set_mark ns pni.toNat nd hget _ h)
            · exact Or.inr (Or.inl h)
            · left
              rw [h]
              simp only [reqAtI, getNode, if_neg hneg]
              rw [List.get?_set_eq_of_lt _ hlen]
        · have hp2 := hplt pni.toNat nd hget
          by_cases hneg2 : nd.parentIndex < 0
          · exact Or.inl hneg2
          · right
            rw [List.length_set]
            omega

/-- The function `addChildren` appends: old entries are unchanged; every new node has
its position as `myIndex`, the parent's index as `parentIndex`, and an
unset required flag; every queue entry is an old one or points at a new
node. -/
theorem addChildren_spec {ε : Type} (vstat : List String → Except ε FileMode) (parent : VNode) :
    ∀ (names : List String) (nodes : List VNode) (queue : List Nat)
      (r : List VNode × List Nat),
      addChildren vstat parent names nodes queue = .ok r →
      nodes.length ≤ r.1.length ∧
      (∀ i, i < nodes.length → r.1.get? i = nodes.get? i) ∧
      (∀ i nd, nodes.length ≤ i → r.1.get? i = some nd →
        nd.myIndex = i ∧ nd.parentIndex = (parent.myIndex : Int) ∧
        nd.isRequiredAncestor = false) ∧
      (∀ j, j ∈ r.2 → j ∈ queue ∨ (nodes.length ≤ j ∧ j < r.1.length)) := by
  intro names
  induction names with
  | nil =>
    intro nodes queue r h
    simp only [addChildren] at h
    cases h
    refine ⟨le_refl _, fun i _ => rfl, ?_, ?_⟩
    · intro i nd hle hget
      have hlt : i < nodes.length := (List.get?_eq_some.mp hget).1
      omega
    · intro j hj
      exact Or.inl hj
  | cons n rest ih =>
    intro nodes queue r h
    simp only [addChildren] at h
    split at h
    · exact ih _ _ _ h
    · split at h
      · exact Except.noConfusion h
      · next mode _ =>
        split at h
        · exact ih _ _ _ h
        · obtain ⟨h1, h2, h3, h4⟩ := ih _ _ _ h
          simp only [List.length_append, List.length_singleton] at h1
          refine ⟨by omega, ?_, ?_, ?_⟩
          · intro i hi
            rw [h2 i (by simp only [List.length_append, List.length_singleton]; omega)]
            exact List.get?_append hi
          · intro i ndi hle hget
            by_cases hi : i = nodes.length
            · subst hi
              rw [h2 _ (by simp)] at hget
              rw [List.get?_concat_length] at hget
              cases hget
              exact ⟨rfl, rfl, rfl⟩
            · exact h3 i ndi (by simp only [List.length_append, List.length_singleton]; omega) hget
          · intro j hj
            rcases h4 j hj with hin | ⟨hge, hlt⟩
            · by_cases hdir : mode.isDir = true
              · rw [if_pos hdir] at hin
                rcases List.mem_append.mp hin with hold | hnew
                · exact Or.inl hold
                · simp only [List.mem_singleton] at hnew
                  subst hnew
                  exact Or.inr ⟨le_refl _, by omega⟩
              · rw [if_neg hdir] at hin
                exact Or.inl hin
            · right
              constructor
              · simp only [List.length_append, List.length_singleton] at hge
                omega
              · exact hlt

/-- The required flag at an index below the preserved range is unchanged
when an array is extended or rewritten pointwise. -/
theorem reqAtI_agree (ns ns2 : List VNode) (j : Int)
    (hagree : ∀ i, i < ns.length → ns2.get? i = ns.get? i)
    (hj : j < (ns.length : Int)) :
    reqAtI ns2 j = reqAtI ns j := by
  simp only [reqAtI, getNode]
  by_cases hneg : j < 0
  · simp only [if_pos hneg]
  · simp only [if_neg hneg]
    rw [hagree j.toNat (by omega)]

/-- The walk maintains: node indices match positions, parent indices
strictly precede their node, the required set is upward closed, queued
indices are in range, log entries name required nodes, and the status
map never holds `NotInLock`. -/
theorem verifyLoop_good {ε : Type} (dops : DigestOps ε) (vstat : List String → Except ε FileMode)
    (root : List String) (table : List (List String × List Nat)) (dFuel : Nat) :
    ∀ (fuel : Nat) (nodes : List VNode) (queue : List Nat) (status : StatusMap)
      (log : List (Nat × VendorStatus)) (r : VerifyResult),
      IdxOk nodes → ParentLt nodes → UpClosed nodes →
      (∀ i ∈ queue, i < nodes.length) →
      (∀ e ∈ log, ∃ nd : VNode, nodes.get? e.1 = some nd ∧ nd.isRequiredAncestor = true) →
      (∀ p, status p ≠ some .NotInLock) →
      verifyLoop dops vstat root table dFuel fuel nodes queue status log = some (.ok r) →
      IdxOk r.nodes ∧ ParentLt r.nodes ∧ UpClosed r.nodes ∧
      (∀ e ∈ r.log, ∃ nd : VNode, r.nodes.get? e.1 = some nd ∧ nd.isRequiredAncestor = true) ∧
      (∀ p, r.status p ≠ some .NotInLock) := by
  intro fuel
  induction fuel with
  | zero =>
    intro nodes queue status log r hidx hplt hup hqb hlog hst hrun
    simp only [verifyLoop] at hrun
    split at hrun
    · have hre : VerifyResult.mk status nodes log = r := Except.ok.inj (Option.some.inj hrun)
      cases hre
      exact ⟨hidx, hplt, hup, hlog, hst⟩
    · exact Option.noConfusion hrun
  | succ f ih =>
    intro nodes queue status log r hidx hplt hup hqb hlog hst hrun
    simp only [verifyLoop] at hrun
    split at hrun
    case _ hq =>
      have hre : VerifyResult.mk status nodes log = r := Except.ok.inj (Option.some.inj hrun)
      cases hre
      exact ⟨hidx, hplt, hup, hlog, hst⟩
    case _ i hq =>
      have hiq : i ∈ queue := List.mem_of_mem_getLast? hq
      have hilen : i < nodes.length := hqb i hiq
      split at hrun
      case _ hgc => exact Option.noConfusion hrun
      case _ cur hgc =>
        have hcuri : cur.myIndex = i := hidx i cur hgc
        split at hrun
        case _ want hw =>
          split at hrun
          case _ hls => exact Option.noConfusion hrun
          case _ e hls => exact Except.noConfusion (Option.some.inj hrun)
          case _ ls hls =>
            have hlsval : ls = .EmptyDigestInLock ∨ ls = .NoMismatch ∨
                ls = .DigestMismatchInLock := by
              split at hls
              · exact Or.inl (Except.ok.inj (Option.some.inj hls)).symm
              · split at hls
                · exact Option.noConfusion hls
                · exact Except.noConfusion (Option.some.inj hls)
                · have hv := (Except.ok.inj (Option.some.inj hls))
                  split at hv
                  · exact Or.inr (Or.inl hv.symm)
                  · exact Or.inr (Or.inr hv.symm)
            have hlsne : ls ≠ .NotInLock := by
              rcases hlsval with h | h | h <;> simp [h]
            have htn : ((cur.myIndex : Int)).toNat = i := by
              simp [hcuri]
            have hnneg : ¬ ((cur.myIndex : Int)) < 0 := by
              simp
            have hidx2 : IdxOk (markChain (nodes.length + 1) nodes ((cur.myIndex : Int))) := by
              intro k ndk hget2
              obtain ⟨nd0, hg0, _, hp2, _, _⟩ := markChain_get? _ _ _ _ _ hget2
              rw [hp2]
              exact hidx k nd0 hg0
            have hplt2 : ParentLt (markChain (nodes.length + 1) nodes ((cur.myIndex : Int))) := by
              intro k ndk hget2
              obtain ⟨nd0, hg0, _, _, hp3, _⟩ := markChain_get? _ _ _ _ _ hget2
              rw [hp3]
              exact hplt k nd0 hg0
            have hup2 : UpClosed (markChain (nodes.length + 1) nodes ((cur.myIndex : Int))) := by
              apply markChain_upClosed _ _ _ hplt
              · intro k ndk hg hr2
                rcases hup k ndk hg hr2 with h | h
                · exact Or.inl h
                · exact Or.inr (Or.inl h)
              · right
                rw [htn]
                omega
            have hqb2 : ∀ j ∈ queue.dropLast,
                j < (markChain (nodes.length + 1) nodes ((cur.myIndex : Int))).length := by
              intro j hj
              rw [markChain_length]
              exact hqb j (List.mem_of_mem_dropLast hj)
            have hlog2 : ∀ e ∈ log ++ [(cur.myIndex, ls)],
                ∃ nd : VNode,
                  (markChain (nodes.length + 1) nodes ((cur.myIndex : Int))).get? e.1 =
                    some nd ∧ nd.isRequiredAncestor = true := by
              intro e he
              rcases List.mem_append.mp he with hold | hnew
              · obtain ⟨nd0, hg0, hr0⟩ := hlog e hold
                obtain ⟨nd', hres, hreq', _, _, _⟩ := markChain_mono _ _ _ _ _ hg0 hr0
                exact ⟨nd', hres, hreq'⟩
              · simp only [List.mem_singleton] at hnew
                subst hnew
                have hstart := markChain_marks_start (nodes.length + 1) nodes
                  ((cur.myIndex : Int)) (by omega) hnneg (by rw [htn]; exact hilen)
                simp only [reqAtI, getNode, if_neg hnneg, htn] at hstart
                cases hres : (markChain (nodes.length + 1) nodes
                    ((cur.myIndex : Int))).get? i with
                | none => rw [hres] at hstart; simp at hstart
                | some nd' =>
                  rw [hres] at hstart
                  exact ⟨nd', by rw [← hcuri] at hres; exact hres, hstart⟩
            have hst2 : ∀ p, setStatus status (cur.pathname.drop root.length) ls p ≠
                some .NotInLock := by
              intro p
              rw [setStatus_lookup]
              by_cases hp : p = cur.pathname.drop root.length
              · rw [if_pos hp]
                intro hcon
                exact hlsne (Option.some.inj hcon)
              · rw [if_neg hp]
                exact hst p
            exact ih _ _ _ _ r hidx2 hplt2 hup2 hqb2 hlog2 hst2 hrun
        case _ hw =>
          split at hrun
          case _ e hsc => exact Except.noConfusion (Option.some.inj hrun)
          case _ names hsc =>
            split at hrun
            case _ e hac => exact Except.noConfusion (Option.some.inj hrun)
            case _ rr hac =>
              obtain ⟨h1, h2, h3, h4⟩ := addChildren_spec vstat cur names nodes queue.dropLast rr hac
              have hidx2 : IdxOk rr.1 := by
                intro k ndk hget2
                by_cases hk : k < nodes.length
                · rw [h2 k hk] at hget2
                  exact hidx k ndk hget2
                · exact (h3 k ndk (by omega) hget2).1
              have hplt2 : ParentLt rr.1 := by
                intro k ndk hget2
                by_cases hk : k < nodes.length
                · rw [h2 k hk] at hget2
                  exact hplt k ndk hget2
                · obtain ⟨_, hpi, _⟩ := h3 k ndk (by omega) hget2
                  rw [hpi, hcuri]
                  exact_mod_cast show i < k by omega
              have hup2 : UpClosed rr.1 := by
                intro k ndk hget2 hreq2
                by_cases hk : k < nodes.length
                · rw [h2 k hk] at hget2
                  have hpk := hplt k ndk hget2
                  rcases hup k ndk hget2 hreq2 with h | h
                  · left
                    rw [reqAtI_agree nodes rr.1 ndk.parentIndex h2 (by
                      have : (k : Int) < (nodes.length : Int) := by exact_mod_cast hk
                      omega)]
                    exact h
                  · exact Or.inr h
                · obtain ⟨_, _, hreqf⟩ := h3 k ndk (by omega) hget2
                  rw [hreqf] at hreq2
                  exact Bool.noConfusion hreq2
              have hqb2 : ∀ j ∈ rr.2, j < rr.1.length := by
                intro j hj
                rcases h4 j hj with hold | ⟨_, hlt⟩
                · have := hqb j (List.mem_of_mem_dropLast hold)
                  omega
                · exact hlt
              have hlog2 : ∀ e ∈ log,
                  ∃ nd : VNode, rr.1.get? e.1 = some nd ∧ nd.isRequiredAncestor = true := by
                intro e he
                obtain ⟨nd0, hg0, hr0⟩ := hlog e he
                refine ⟨nd0, ?_, hr0⟩
                rw [h2 e.1 (List.get?_eq_some.mp hg0).1]
                exact hg0
              exact ih _ _ _ _ r hidx2 hplt2 hup2 hqb2 hlog2 hst hrun

/-- A successful `VerifyDepTree` run decomposes into a walk result
satisfying the invariants, followed by the backward pass. -/
theorem verifyDepTree_good {ε : Type} (dops : DigestOps ε)
    (vstat : List String → Except ε FileMode) (root : List String)
    (table : List (List String × List Nat)) (dFuel fuel : Nat) (r : VerifyResult) :
    verifyDepTree dops vstat root table dFuel fuel = some (.ok r) →
    ∃ w : VerifyResult,
      IdxOk w.nodes ∧ ParentLt w.nodes ∧ UpClosed w.nodes ∧
      (∀ e ∈ w.log, ∃ nd : VNode, w.nodes.get? e.1 = some nd ∧ nd.isRequiredAncestor = true) ∧
      (∀ p, w.status p ≠ some .NotInLock) ∧
      r.nodes = w.nodes ∧
      r.status = (backwardPass w.nodes root.length (w.nodes.length - 1) w.status w.log).1 ∧
      r.log = (backwardPass w.nodes root.length (w.nodes.length - 1) w.status w.log).2 := by
  intro hrun
  simp only [verifyDepTree] at hrun
  split at hrun
  · exact Except.noConfusion (Option.some.inj hrun)
  · split at hrun
    · exact Except.noConfusion (Option.some.inj hrun)
    · split at hrun
      case _ hloop => exact Option.noConfusion hrun
      case _ e hloop => exact Except.noConfusion (Option.some.inj hrun)
      case _ w hloop =>
        have hre := Except.ok.inj (Option.some.inj hrun)
        cases hre
        have hinit :=
          verifyLoop_good dops vstat root table dFuel fuel
            [⟨root, true, 0, -1⟩] [0]
            (fun k => if (tLookup table k).isSome then some .NotInTree else none) [] w
            (by
              intro i nd hget
              cases i with
              | zero =>
                have h := Option.some.inj hget
                subst h
                rfl
              | succ n => simp [List.get?] at hget)
            (by
              intro i nd hget
              cases i with
              | zero =>
                have h := Option.some.inj hget
                subst h
                exact show (-1 : Int) < ((0 : Nat) : Int) by decide
              | succ n => simp [List.get?] at hget)
            (by
              intro i nd hget _
              cases i with
              | zero =>
                have h := Option.some.inj hget
                subst h
                exact Or.inr (show (-1 : Int) < 0 by decide)
              | succ n => simp [List.get?] at hget)
            (by
              intro i hi
              simp only [List.mem_singleton] at hi
              subst hi
              simp)
            (by intro e he; simp at he)
            (by
              intro p
              by_cases hk : (tLookup table p).isSome
              · simp [hk]
              · simp [hk])
            hloop
        exact ⟨w, hinit.1, hinit.2.1, hinit.2.2.1, hinit.2.2.2.1, hinit.2.2.2.2, rfl, rfl, rfl⟩

/-- The file system of the C5 example: under vendor root `v`, directory
`a` with project directories `a/x` and `a/y`. -/
def fsC5 : FTree := .dir [("v", .dir [("a", .dir [("x", .dir []), ("y", .dir [])])])]

/-- The C5 table: only `a/x`, with its correct digest. -/
def tableC5 : List (List String × List Nat) := [(["a", "x"], [97, 47, 120, 0])]

/-- The C5 example run. -/
def runC5 : Option (Except (GoErr Unit) VerifyResult) :=
  verifyDepTree (dOpsOfTree fsC5) (vStatOfTree fsC5) ["v"] tableC5 10 10

/-- The file system of the C5 counterexample: as `fsC5`, but `a/y`
contains a regular file `z` whose path is also a table key. -/
def fsC5c : FTree :=
  .dir [("v", .dir [("a", .dir [("x", .dir []), ("y", .dir [("z", .file [])])])])]

/-- The C5 counterexample table: `a/x` matching, plus the key `a/y/z`. -/
def tableC5c : List (List String × List Nat) :=
  [(["a", "x"], [97, 47, 120, 0]), (["a", "y", "z"], [5])]

/-- The C5 counterexample run. -/
def runC5c : Option (Except (GoErr Unit) VerifyResult) :=
  verifyDepTree (dOpsOfTree fsC5c) (vStatOfTree fsC5c) ["v"] tableC5c 10 10

/-- The result of a completed run, with a vacuous default for failed
runs so that concrete successful runs can be named in theorems. -/
def resOf {ε : Type} (res : Option (Except (GoErr ε) VerifyResult)) : VerifyResult :=
  match res with
  | some (.ok r) => r
  | _ => ⟨fun _ => none, [], []⟩

/-- C5 counterexample: the claim as stated says no strict descendant of a
`NotInLock` node is assigned a status.  Here node 4 (path `v/a/y/z`) is a
strict descendant of node 3 (path `v/a/y`, its ancestor chain is
`[3, 1, 0]`), `a/y` is assigned `NotInLock`, yet the returned map also
assigns `a/y/z` a status, namely its table-initialization entry
`NotInTree`. -/
theorem verify_descendant_keeps_status :
    statusAt runC5c ["a", "y"] = some (some .NotInLock) ∧
    statusAt runC5c ["a", "y", "z"] = some (some .NotInTree) ∧
    (nodesOf runC5c).map (fun ns => ns.map VNode.pathname) =
      some [["v"], ["v", "a"], ["v", "a", "x"], ["v", "a", "y"], ["v", "a", "y", "z"]] ∧
    (nodesOf runC5c).map (fun ns => ancestorsOf ns 4) = some [3, 1, 0] :=
  ⟨rfl, rfl, rfl, rfl⟩

/-- C5 (amended): (1) in the returned map a path holds `NotInLock`
exactly when some walked node other than the root is not marked required
while its parent is marked required and its prefix-stripped path is that
path; (2) for expected table `a/x: D1` over a tree with `a/x` (matching)
and `a/y`, the map holds `a/x: NoMismatch` and `a/y: NotInLock` and no
entry for `a`; (3) no strict descendant of a node satisfying the
`NotInLock` condition is ever written by the traversal or the backward
pass (a strict descendant whose path is a table key keeps its untouched
`NotInTree` initialization entry, which is what the counterexample
exhibits). -/
theorem verify_NotInLock_characterization :
    (∀ (ε : Type) (dops : DigestOps ε) (vstat : List String → Except ε FileMode)
        (root : List String) (table : List (List String × List Nat)) (dFuel fuel : Nat)
        (r : VerifyResult),
        verifyDepTree dops vstat root table dFuel fuel = some (.ok r) →
        ∀ p, (r.status p = some .NotInLock ↔
          ∃ k, 0 < k ∧ nlCond r.nodes root.length k p)) ∧
    (statusAt runC5 ["a", "x"] = some (some .NoMismatch) ∧
      statusAt runC5 ["a", "y"] = some (some .NotInLock) ∧
      statusAt runC5 ["a"] = some none) ∧
    (∀ (ε : Type) (dops : DigestOps ε) (vstat : List String → Except ε FileMode)
        (root : List String) (table : List (List String × List Nat)) (dFuel fuel : Nat)
        (r : VerifyResult),
        verifyDepTree dops vstat root table dFuel fuel = some (.ok r) →
        ∀ (i j : Nat) (ndI : VNode),
          i ∈ ancestorsOf r.nodes j →
          r.nodes.get? i = some ndI →
          ndI.isRequiredAncestor = false →
          parentReqAt r.nodes ndI = true →
          ∀ s, (j, s) ∉ r.log) := by
  refine ⟨?_, ⟨rfl, rfl, rfl⟩, ?_⟩
  · intro ε dops vstat root table dFuel fuel r hrun p
    obtain ⟨w, hidx, hplt, hup, hlog, hst, hn, hss, hsl⟩ :=
      verifyDepTree_good dops vstat root table dFuel fuel r hrun
    rw [hss, backwardPass_status]
    constructor
    · rintro (⟨k, hk1, _, hc⟩ | habs)
      · refine ⟨k, by omega, ?_⟩
        rw [hn]
        exact hc
      · exact absurd habs (hst p)
    · rintro ⟨k, hk0, hc⟩
      rw [hn] at hc
      obtain ⟨hklen, h1, h2, h3⟩ := hc
      exact Or.inl ⟨k, by omega, by omega, hklen, h1, h2, h3⟩
  · intro ε dops vstat root table dFuel fuel r hrun i j ndI hanc hgetI hreqI hparI s hmem
    obtain ⟨w, hidx, hplt, hup, hlog, hst, hn, hss, hsl⟩ :=
      verifyDepTree_good dops vstat root table dFuel fuel r hrun
    rw [hsl] at hmem
    rw [hn] at hanc hgetI hparI
    rcases backwardPass_log_mem w.nodes root.length _ _ _ _ hmem with hold | ⟨hjlen, hjreq, hjpar⟩
    · obtain ⟨ndj, hgj, hreqj⟩ := hlog _ hold
      simp only [ancestorsOf] at hanc
      rw [hgj] at hanc
      have hanc2 : i ∈ ancChainF w.nodes (w.nodes.length + 1) ndj.parentIndex := hanc
      rcases hup j ndj hgj hreqj with hpar | hneg
      · obtain ⟨ndi', hgi', hreqi'⟩ :=
          ancChain_req w.nodes hup (w.nodes.length + 1) ndj.parentIndex hpar i hanc2
        rw [hgetI] at hgi'
        have heq := Option.some.inj hgi'
        rw [← heq, hreqI] at hreqi'
        exact Bool.noConfusion hreqi'
      · simp only [ancChainF, if_pos hneg] at hanc2
        exact absurd hanc2 (List.not_mem_nil i)
    · have hgj : w.nodes.get? j = some (w.nodes.get ⟨j, hjlen⟩) := List.get?_eq_get hjlen
      rw [parentReqAt_eq_reqAtI] at hjpar
      simp only [ancestorsOf] at hanc
      rw [hgj] at hanc
      have hanc2 : i ∈ ancChainF w.nodes (w.nodes.length + 1)
          (w.nodes.get ⟨j, hjlen⟩).parentIndex := hanc
      obtain ⟨ndi', hgi', hreqi'⟩ :=
        ancChain_req w.nodes hup (w.nodes.length + 1) _ hjpar i hanc2
      rw [hgetI] at hgi'
      have heq := Option.some.inj hgi'
      rw [← heq, hreqI] at hreqi'
      exact Bool.noConfusion hreqi'

/-- Witness for C5: on the example run, the characterization yields the
`NotInLock` entry for `a/y` from its witness node (index 3), and on the
counterexample run the strict descendant node 4 of the `NotInLock` node
3 is never written to the log. -/
theorem verify_NotInLock_characterization_witness :
    (resOf runC5).status ["a", "y"] = some .NotInLock ∧
    ((4 : Nat), VendorStatus.NotInLock) ∉ (resOf runC5c).log :=
  ⟨(verify_NotInLock_characterization.1 Unit (dOpsOfTree fsC5) (vStatOfTree fsC5) ["v"]
      tableC5 10 10 (resOf runC5) rfl ["a", "y"]).mpr
      ⟨3, by decide, by decide, by decide, by decide, by decide⟩,
    verify_NotInLock_characterization.2.2 Unit (dOpsOfTree fsC5c) (vStatOfTree fsC5c) ["v"]
      tableC5c 10 10 (resOf runC5c) rfl 3 4 ⟨["v", "a", "y"], false, 3, 1⟩
      (by decide) rfl rfl rfl VendorStatus.NotInLock⟩

end PkgTree
